import Mathlib

/-!
Verification of the HTTP-client core of the Browser-Engineering repository
(`chapters/01. Downloading Web Pages/exercise.py`).

The Python module is shallowly embedded below: strings and byte streams are
`List Char` (UTF-8 decoding of a well-formed stream is the identity in this
model), Python dicts are association lists with overwrite-on-insert, the
wall clock, the network, the filesystem and `gzip.decompress` are parameters
of an `Env` record, and exceptions become an error sum.  Python `int()` is
modelled for the optional-sign decimal forms that occur here (underscore
separators and surrounding whitespace inside the literal are not modelled),
and `int(_, 16)` for plain hexadecimal digit strings.
-/

namespace BrowserEng

/-- Strings/byte streams of the embedding. -/
abbrev Str := List Char

/-- Coerce a Lean string literal into the embedding's string type. -/
def str (s : String) : Str := s.data

/-! ### Python dict operations (association lists, overwrite semantics) -/

/-- Python dict lookup `d.get(k)` / `d[k]`. -/
def dlookup {α β : Type} [DecidableEq α] : List (α × β) → α → Option β
  | [], _ => none
  | (k, v) :: rest, k' => if k' = k then some v else dlookup rest k'

/-- Python dict deletion `del d[k]`. -/
def ddelete {α β : Type} [DecidableEq α] (l : List (α × β)) (k : α) : List (α × β) :=
  l.filter (fun p => p.1 ≠ k)

/-- Python dict assignment `d[k] = v` (overwrites any previous binding). -/
def dinsert {α β : Type} [DecidableEq α] (l : List (α × β)) (k : α) (v : β) : List (α × β) :=
  (k, v) :: ddelete l k

/-! ### Python string primitives used by the module -/

/-- Python `s.split(sep, 1)` when it yields two parts; `none` when `sep` is
absent (in which case the module's 2-variable unpacking raises). -/
def pySplit1 (sep : Char) : Str → Option (Str × Str)
  | [] => none
  | c :: rest =>
    if c = sep then some ([], rest)
    else match pySplit1 sep rest with
      | none => none
      | some (a, b) => some (c :: a, b)

/-- Python `s.split(sep, 2)` when it yields three parts (status-line split). -/
def pySplit2 (sep : Char) (s : Str) : Option (Str × Str × Str) :=
  match pySplit1 sep s with
  | none => none
  | some (a, r) =>
    match pySplit1 sep r with
    | none => none
    | some (b, c) => some (a, b, c)

/-- Python `s.split(sep)` (no limit). -/
def pySplitAll (sep : Char) : Str → List Str
  | [] => [[]]
  | c :: rest =>
    if c = sep then [] :: pySplitAll sep rest
    else match pySplitAll sep rest with
      | [] => [[c]]
      | p :: ps => (c :: p) :: ps

/-- Python `c in s` for a single-character needle. -/
def pyIn (c : Char) (s : Str) : Bool := s.any (· == c)

/-- Python whitespace as recognized by `str.strip()` (ASCII range). -/
def isPySpace (c : Char) : Bool :=
  c == ' ' || c == '\t' || c == '\n' || c == '\r' || c == '\x0b' || c == '\x0c'

/-- Python `s.strip()`. -/
def pyStrip (s : Str) : Str :=
  ((s.dropWhile isPySpace).reverse.dropWhile isPySpace).reverse

/-- Python `s.casefold()` (ASCII lowering; the header names here are ASCII). -/
def pyCasefold (s : Str) : Str := s.map Char.toLower

/-- Python `s.startswith(p)` (first argument is the prefix). -/
def pyStartswith : Str → Str → Bool
  | [], _ => true
  | _ :: _, [] => false
  | p :: ps, c :: cs => p == c && pyStartswith ps cs

/-- Python `s.endswith(p)` (first argument is the suffix). -/
def pyEndswith (sfx s : Str) : Bool := pyStartswith sfx.reverse s.reverse

/-- Python `needle in hay` for general substrings. -/
def containsSubstr : Str → Str → Bool
  | [], n => pyStartswith n []
  | c :: t, n => pyStartswith n (c :: t) || containsSubstr t n

/-! ### Numeric parsing and printing -/

/-- Decimal digit value of a character, if any. -/
def digitVal (c : Char) : Option Nat :=
  if '0' ≤ c ∧ c ≤ '9' then some (c.toNat - '0'.toNat) else none

/-- Accumulating decimal parse; fails on the first non-digit. -/
def pyNatGo (acc : Nat) : Str → Option Nat
  | [] => some acc
  | c :: rest =>
    match digitVal c with
    | none => none
    | some v => pyNatGo (acc * 10 + v) rest

/-- Parse a nonempty all-digit string. -/
def pyNat (s : Str) : Option Nat :=
  if s = [] then none else pyNatGo 0 s

/-- Python `int(s)` for an optional sign followed by decimal digits. -/
def pyInt : Str → Option Int
  | [] => none
  | c :: rest =>
    if c = '-' then (pyNat rest).map (fun n => -(n : Int))
    else if c = '+' then (pyNat rest).map (fun n => (n : Int))
    else (pyNat (c :: rest)).map (fun n => (n : Int))

/-- Hexadecimal digit value of a character, if any. -/
def hexVal (c : Char) : Option Nat :=
  if '0' ≤ c ∧ c ≤ '9' then some (c.toNat - '0'.toNat)
  else if 'a' ≤ c ∧ c ≤ 'f' then some (c.toNat - 'a'.toNat + 10)
  else if 'A' ≤ c ∧ c ≤ 'F' then some (c.toNat - 'A'.toNat + 10)
  else none

/-- Accumulating hexadecimal parse. -/
def pyHexGo (acc : Nat) : Str → Option Nat
  | [] => some acc
  | c :: rest =>
    match hexVal c with
    | none => none
    | some v => pyHexGo (acc * 16 + v) rest

/-- Python `int(s, 16)` for a nonempty string of hex digits (the only form a
valid chunk-size line takes). -/
def pyIntHex (s : Str) : Option Nat :=
  if s = [] then none else pyHexGo 0 s

/-- Decimal rendering of a natural number, fuelled (the fuel strictly exceeds
the recursion depth, so the `0` case is unreachable from `natToStr`). -/
def natToStrF : Nat → Nat → Str
  | 0, _ => []
  | f + 1, n =>
    if n < 10 then [Nat.digitChar n]
    else natToStrF f (n / 10) ++ [Nat.digitChar (n % 10)]

/-- Decimal rendering of a natural number. -/
def natToStr (n : Nat) : Str := natToStrF (n + 1) n

/-- Decimal rendering of an integer. -/
def intToStr (i : Int) : Str :=
  if i < 0 then '-' :: natToStr (-i).toNat else natToStr i.toNat

/-! ### Binary stream reading (`makefile("rb")`) -/

/-- `readline()` on a binary stream: everything through the first newline
(or the whole rest at end of stream), plus the remainder. -/
def readLine : Str → Str × Str
  | [] => ([], [])
  | c :: rest =>
    if c = '\n' then ([c], rest)
    else
      let p := readLine rest
      (c :: p.1, p.2)

/-- `read(n)`: up to `n` bytes plus the remainder. -/
def readN (n : Nat) (s : Str) : Str × Str := (s.take n, s.drop n)

/-! ### The parsed-URL data model (`URL.__init__`)

The Python class stores a scheme string plus per-scheme fields; the model is a
closed variant.  `http` and `https` share the `web` constructor, with
`sec = true` exactly for `https` (the only place the two differ is the default
port and TLS wrapping). -/

inductive ParsedURL where
  | web (sec : Bool) (host : Str) (port : Int) (path : Str)
  | file (path : Str)
  | data (mime : Str) (payload : Str)
  | viewSource (actual : ParsedURL)
deriving DecidableEq

/-- The scheme string of a `web` URL. -/
def webScheme (sec : Bool) : Str := if sec then str "https" else str "http"

/-- Lines 38–45 of `URL.__init__`: the http/https tail after the leading
`//` has been stripped (append a `/` if none, split host from path, then
extract an explicit port from the host if a colon is present). -/
def parseWebTail (sec : Bool) (body1 : Str) : Option ParsedURL :=
  let defPort : Int := if sec then 443 else 80
  let body2 := if pyIn '/' body1 then body1 else body1 ++ ['/']
  match pySplit1 '/' body2 with
  | none => none
  | some (host0, p) =>
    let path := '/' :: p
    if pyIn ':' host0 then
      match pySplit1 ':' host0 with
      | none => none
      | some (hst, prt) =>
        match pyInt prt with
        | none => none
        | some pn => some (.web sec hst pn path)
    else some (.web sec host0 defPort path)

/-- `URL.__init__`, fuelled: the fuel strictly exceeds the `view-source`
nesting depth (each unwrapping shortens the string), so the `0` case is
unreachable from `parseURL`. -/
def parseURLF : Nat → Str → Option ParsedURL
  | 0, _ => none
  | f + 1, url =>
    match pySplit1 ':' url with
    | none => none
    | some (scheme, body0) =>
      if scheme = str "data" then
        match pySplit1 ',' body0 with
        | none => none
        | some (mime, payload) => some (.data mime payload)
      else if scheme = str "view-source" then
        match parseURLF f body0 with
        | none => none
        | some u => some (.viewSource u)
      else if scheme = str "http" ∨ scheme = str "https" ∨ scheme = str "file" then
        let body1 := if pyStartswith (str "//") body0 then body0.drop 2 else body0
        if scheme = str "file" then some (.file body1)
        else parseWebTail (scheme = str "https") body1
      else none

/-- `URL.__init__`: parse a raw URL string; `none` models the constructor
raising (`ValueError` from unpacking or `int()`, or the scheme assert). -/
def parseURL (url : Str) : Option ParsedURL := parseURLF (url.length + 1) url

/-! ### Process-wide state, environment, events -/

/-- A pooled transport: the socket for a `(host, port)` key, with `tls = true`
when it was wrapped by `ssl` at creation (i.e. established for `https`). -/
structure Transport where
  host : Str
  port : Int
  tls : Bool
deriving DecidableEq

/-- `open_sockets`: `{(host, port): socket}`. -/
abbrev Pool := List ((Str × Int) × Transport)

/-- `cache`: `{url: (response_body, expiry_timestamp)}`; `none` expiry means
"never expires". -/
abbrev Cache := List (Str × (Str × Option Int))

/-- The two process-wide dicts. -/
structure RState where
  pool : Pool
  cache : Cache
deriving DecidableEq

/-- Observable I/O actions of a fetch. -/
inductive Event where
  | connect (host : Str) (port : Int)
  | tlsWrap (host : Str)
  | send (data : Str)
  | recv (host : Str) (port : Int) (path : Str)
deriving DecidableEq

/-- Errors raised by `URL.request` (Python exceptions), plus the fuel marker
for the unbounded-recursion cases the Python code would not return from. -/
inductive ReqError where
  | tooManyRedirects
  | noLocation
  | protocolError
  | badRedirectURL
  | ioError
  | outOfFuel
deriving DecidableEq

instance {ε α : Type} [DecidableEq ε] [DecidableEq α] : DecidableEq (Except ε α) := by
  intro a b
  cases a <;> cases b
  case error.error e₁ e₂ =>
    exact if h : e₁ = e₂ then isTrue (by rw [h]) else isFalse (by simp [h])
  case error.ok => exact isFalse (by simp)
  case ok.error => exact isFalse (by simp)
  case ok.ok a₁ a₂ =>
    exact if h : a₁ = a₂ then isTrue (by rw [h]) else isFalse (by simp [h])

/-- Result of one `request` call: returned value or exception, the updated
process-wide dicts, and the I/O events in order. -/
structure Outcome where
  result : Except ReqError Str
  st : RState
  events : List Event
deriving DecidableEq

/-- External collaborators: the network (response byte stream for a GET to
host/port/path), the filesystem, `gzip.decompress`, and `time.time()` (both
calls inside one fetch observe the same instant in this model). -/
structure Env where
  net : Str → Int → Str → Str
  fs : Str → Option Str
  gunzip : Str → Str
  now : Int

/-! ### Helpers of `URL.request`, in source order -/

/-- Lines 57–73: look up `open_sockets[(host, port)]`, else connect (and TLS
wrap when the scheme is https) and store the new transport. -/
def poolObtain (sec : Bool) (host : Str) (port : Int) (pool : Pool) :
    Transport × Pool × List Event :=
  match dlookup pool (host, port) with
  | some t => (t, pool, [])
  | none =>
    (⟨host, port, sec⟩, dinsert pool (host, port) ⟨host, port, sec⟩,
      if sec then [.connect host port, .tlsWrap host] else [.connect host port])

/-- Line 75: the cache key `self.scheme + "://" + self.host + self.path`
(note: the port is not part of the key). -/
def urlStr (sec : Bool) (host path : Str) : Str :=
  webScheme sec ++ str "://" ++ host ++ path

/-- Re-serialization of parsed http/https components into a request target
(used to state the round-trip property of claim C7). -/
def serializeWeb (sec : Bool) (host : Str) (port : Int) (path : Str) : Str :=
  webScheme sec ++ str "://" ++ (host ++ ':' :: (intToStr port ++ path))

/-- Lines 78–83: return an unexpired cached body, deleting an expired entry. -/
def cacheLookup (c : Cache) (url : Str) (now : Int) : Option Str × Cache :=
  match dlookup c url with
  | none => (none, c)
  | some (body, expiry) =>
    match expiry with
    | none => (some body, c)
    | some e => if now < e then (some body, c) else (none, ddelete c url)

/-- Lines 85–96: the framed request (headers in the literal's order). -/
def framedRequest (path host : Str) : Str :=
  str "GET " ++ path ++ str " HTTP/1.1\r\n" ++
  str "Host: " ++ host ++ str "\r\n" ++
  str "Connection: keep-alive\r\n" ++
  str "User-Agent: ArunBrowser/0.1\r\n" ++
  str "Accept-Encoding: gzip\r\n" ++
  str "\r\n"

/-- Headers dict: casefolded name ↦ stripped value. -/
abbrev Headers := List (Str × Str)

instance : DecidableEq (Str × Headers × Str) := inferInstance

instance : DecidableEq (Str × Str × Headers × Str) := inferInstance

instance : DecidableEq (Str × Str × Str × Headers × Str) := inferInstance

/-- Lines 103–108: read header lines until a bare CRLF; later duplicates
overwrite.  `none` models `ValueError` from a line without a colon (including
hitting end of stream, where `readline()` returns `""`). -/
def parseHeadersF : Nat → Headers → Str → Option (Headers × Str)
  | 0, _, _ => none
  | f + 1, hdrs, s =>
    if s = [] then none
    else
      let p := readLine s
      if p.1 = str "\r\n" then some (hdrs, p.2)
      else match pySplit1 ':' p.1 with
        | none => none
        | some (name, value) =>
          parseHeadersF f (dinsert hdrs (pyCasefold name) (pyStrip value)) p.2

/-- Header loop entry point; the fuel strictly exceeds the iteration count
(each line consumes at least one byte), so `parseHeadersF`'s `0` case is
unreachable from here. -/
def parseHeaders (hdrs : Headers) (s : Str) : Option (Headers × Str) :=
  parseHeadersF (s.length + 1) hdrs s

/-- Lines 100–108: status line split plus the header block. -/
def parseRespHead (stream : Str) : Option (Str × Str × Str × Headers × Str) :=
  let p := readLine stream
  match pySplit2 ' ' p.1 with
  | none => none
  | some (version, status, explanation) =>
    match parseHeaders [] p.2 with
    | none => none
    | some (hdrs, rest) => some (version, status, explanation, hdrs, rest)

/-- Lines 136–149: the chunked-body loop.  Returns the accumulated body and
the unread remainder of the stream; `none` models `ValueError` from
`int(size_line, 16)` (also hit when the stream is exhausted, where the size
line reads as `""`). -/
def readChunksF : Nat → Str → Option (Str × Str)
  | 0, _ => none
  | f + 1, s =>
    if s = [] then none
    else
      let p := readLine s
      match pyIntHex (pyStrip p.1) with
      | none => none
      | some 0 => some ([], (readLine p.2).2)
      | some (n + 1) =>
        let q := readN (n + 1) p.2
        let r := readN 2 q.2
        match readChunksF f r.2 with
        | none => none
        | some (more, rest) => some (q.1 ++ more, rest)

/-- Chunked-body loop entry point; the fuel strictly exceeds the iteration
count (each chunk consumes at least one byte), so `readChunksF`'s `0` case is
unreachable from here. -/
def readChunks (s : Str) : Option (Str × Str) := readChunksF (s.length + 1) s

/-- Python `d.get(k, default)`. -/
def hGet (hs : Headers) (k d : Str) : Str := (dlookup hs k).getD d

/-- Lines 134–155: chunked transfer decoding, else content-length framing,
else read to end of stream. -/
def readBody (hdrs : Headers) (stream : Str) : Option Str :=
  if dlookup hdrs (str "transfer-encoding") = some (str "chunked") then
    (readChunks stream).map Prod.fst
  else
    match dlookup hdrs (str "content-length") with
    | none => some stream
    | some v =>
      match pyInt v with
      | none => none
      | some cl => some (if 0 < cl then (readN cl.toNat stream).1 else stream)

/-- Lines 168–178: find the first stripped `max-age=` directive in the
comma-separated list and parse everything after the first `=` with `int()`;
any failure is swallowed (no insertion). -/
def findMaxAge : List Str → Option Int
  | [] => none
  | d :: ds =>
    let d' := pyStrip d
    if pyStartswith (str "max-age=") d' then
      match (pySplitAll '=' d').get? 1 with
      | none => none
      | some v => pyInt v
    else findMaxAge ds

/-- Lines 166–178: the `max-age` extraction guarded by the substring test. -/
def parseMaxAge (cc : Str) : Option Int :=
  if containsSubstr cc (str "max-age=") then findMaxAge (pySplitAll ',' cc)
  else none

/-- Lines 119–129: resolve a `Location` header against the current URL. -/
def resolveLocation (scheme host path loc : Str) : Str :=
  if containsSubstr loc (str "://") then loc
  else if pyStartswith (str "/") loc then scheme ++ str "://" ++ host ++ loc
  else if pyEndswith (str "/") path then scheme ++ str "://" ++ host ++ path ++ loc
  else scheme ++ str "://" ++ host ++ path ++ str "/" ++ loc

/-- Everything `URL.request` does for http/https up to (but excluding) the
recursive redirect call, which the caller performs on a `.redir` result. -/
inductive Phase1Out where
  | done (o : Outcome)
  | redir (ru : ParsedURL) (st : RState) (ev : List Event)

/-- Lines 56–183 minus the recursive call at line 132. -/
def httpPhase1 (env : Env) (sec : Bool) (host : Str) (port : Int) (path : Str)
    (redirects : Nat) (st : RState) : Phase1Out :=
  let po := poolObtain sec host port st.pool
  let pool := po.2.1
  let ev1 := po.2.2
  let url := urlStr sec host path
  match cacheLookup st.cache url env.now with
  | (some body, cache2) => .done ⟨.ok body, ⟨pool, cache2⟩, ev1⟩
  | (none, cache2) =>
    let ev := ev1 ++ [.send (framedRequest path host), .recv host port path]
    match parseRespHead (env.net host port path) with
    | none => .done ⟨.error .protocolError, ⟨pool, cache2⟩, ev⟩
    | some (_version, statusStr, _explanation, hdrs, rest) =>
      match pyInt statusStr with
      | none => .done ⟨.error .protocolError, ⟨pool, cache2⟩, ev⟩
      | some status =>
        if 300 ≤ status ∧ status < 400 then
          if 5 ≤ redirects then .done ⟨.error .tooManyRedirects, ⟨pool, cache2⟩, ev⟩
          else
            match dlookup hdrs (str "location") with
            | none => .done ⟨.error .noLocation, ⟨pool, cache2⟩, ev⟩
            | some loc =>
              if loc = [] then .done ⟨.error .noLocation, ⟨pool, cache2⟩, ev⟩
              else
                match parseURL (resolveLocation (webScheme sec) host path loc) with
                | none => .done ⟨.error .badRedirectURL, ⟨pool, cache2⟩, ev⟩
                | some ru => .redir ru ⟨pool, cache2⟩ ev
        else
          match readBody hdrs rest with
          | none => .done ⟨.error .protocolError, ⟨pool, cache2⟩, ev⟩
          | some bb =>
            let body := if hGet hdrs (str "content-encoding") [] = str "gzip"
              then env.gunzip bb else bb
            let cache3 :=
              if status = 200 then
                match parseMaxAge (hGet hdrs (str "cache-control") []) with
                | some ma => dinsert cache2 url (body, some (env.now + ma))
                | none => cache2
              else cache2
            .done ⟨.ok body, ⟨pool, cache3⟩, ev⟩

/-- `URL.request(redirects)`.  The fuel bounds the recursion depth (redirect
hops and view-source unwrapping); the Python original can loop forever on a
malicious redirect chain, which the model reports as `outOfFuel`. -/
def request (env : Env) : Nat → ParsedURL → Nat → RState → Outcome
  | 0, _, _, st => ⟨.error .outOfFuel, st, []⟩
  | fuel + 1, u, redirects, st =>
    match u with
    | .viewSource actual => request env fuel actual 0 st
    | .file path =>
      match env.fs path with
      | some content => ⟨.ok content, st, []⟩
      | none => ⟨.error .ioError, st, []⟩
    | .data _ payload => ⟨.ok payload, st, []⟩
    | .web sec host port path =>
      match httpPhase1 env sec host port path redirects st with
      | .done o => o
      | .redir ru st' ev =>
        let o := request env fuel ru (redirects + 1) st'
        ⟨o.result, o.st, ev ++ o.events⟩

/-! ### `decode_entities` (lines 186–213) -/

/-- The fixed entity table. -/
def ENTITIES : List (Str × Str) :=
  [(str "&lt;", str "<"), (str "&gt;", str ">"), (str "&copy;", str "©"),
   (str "&ndash;", str "–"), (str "&amp;", str "&")]

/-- `text.find(";", i+1)` recast on the suffix after the ampersand: the part
through the first semicolon (inclusive) and the remainder. -/
def splitAtSemi : Str → Option (Str × Str)
  | [] => none
  | c :: rest =>
    if c = ';' then some ([c], rest)
    else match splitAtSemi rest with
      | none => none
      | some (a, b) => some (c :: a, b)

def decodeEntF : Nat → Str → Str
  | 0, _ => []
  | _, [] => []
  | f + 1, c :: rest =>
    if c = '&' then
      match splitAtSemi rest with
      | some (a, after) =>
        match dlookup ENTITIES (c :: a) with
        | some repl => repl ++ decodeEntF f after
        | none => c :: decodeEntF f rest
      | none => c :: decodeEntF f rest
    else c :: decodeEntF f rest

/-- `decode_entities`: replace table entities, pass everything else through
(on a failed table lookup only the ampersand itself is consumed).  The fuel
strictly exceeds the iteration count (each step consumes at least one
character), so `decodeEntF`'s `0` case is unreachable from here. -/
def decode_entities (t : Str) : Str := decodeEntF (t.length + 1) t

/-- Network I/O in the sense of claims C4/C9: framing/sending a request or
reading a response (opening a transport is a `connect` event, not counted
here because the pool is consulted before the cache in the source). -/
def isNetIO : Event → Bool
  | .send _ => true
  | .recv _ _ _ => true
  | _ => false

/-- The events recorded by phase 1, whichever way it ended. -/
def phase1Events : Phase1Out → List Event
  | .done o => o.events
  | .redir _ _ ev => ev

/-- The successor state of phase 1, whichever way it ended. -/
def phase1St : Phase1Out → RState
  | .done o => o.st
  | .redir _ st _ => st

/-- Wire encoding of a list of (size-line, payload) chunks followed by the
terminating `0` chunk. -/
def chunkEncode (l : List (Str × Str)) : Str :=
  (l.map (fun sc => sc.1 ++ str "\r\n" ++ (sc.2 ++ str "\r\n"))).flatten ++ str "0\r\n\r\n"

/-! ## Concrete environments and states used by witnesses and counterexamples -/

/-- A 200 response carrying `max-age=60`, plus one readable file. -/
def envA : Env :=
  { net := fun _ _ _ =>
      str "HTTP/1.1 200 OK\r\ncache-control: max-age=60\r\ncontent-length: 2\r\n\r\nhi"
    fs := fun p => if p = str "/a" then some (str "hello") else none
    gunzip := id
    now := 100 }

/-- A 200 response with a negative `max-age`. -/
def envC3 : Env :=
  { net := fun _ _ _ =>
      str "HTTP/1.1 200 OK\r\ncache-control: max-age=-5\r\ncontent-length: 2\r\n\r\nhi"
    fs := fun _ => none
    gunzip := id
    now := 0 }

/-- A chunked 200 response with hex chunk sizes 5, 3, 0. -/
def envC6 : Env :=
  { net := fun _ _ _ =>
      str "HTTP/1.1 200 OK\r\nTransfer-Encoding: chunked\r\n\r\n5\r\nhello\r\n3\r\nabc\r\n0\r\n\r\n"
    fs := fun _ => none
    gunzip := id
    now := 0 }

/-- A plain 200 response with no caching. -/
def envC2 : Env :=
  { net := fun _ _ _ => str "HTTP/1.1 200 OK\r\ncontent-length: 2\r\n\r\nhi"
    fs := fun _ => none
    gunzip := id
    now := 0 }

/-- State with one cached entry expiring at 200. -/
def stC4 : RState := ⟨[], [(str "https://h/x", (str "cached", some 200))]⟩

/-- State with one cached entry that expired at 50. -/
def stC5 : RState := ⟨[], [(str "http://h/x", (str "old", some 50))]⟩

/-- Redirect responses only, for the too-many-redirects witness chain. -/
def envC1B : Env :=
  { net := fun _ _ _ => str "HTTP/1.1 301 M\r\nLocation: http://h/x\r\n\r\n"
    fs := fun _ => none
    gunzip := id
    now := 0 }

/-- A 5-hop redirect chain `/r0 → … → /r4 → /ok` ending in a 200. -/
def envC1 : Env :=
  { net := fun _ _ pa =>
      if pa = str "/r0" then str "HTTP/1.1 301 M\r\nLocation: http://h/r1\r\n\r\n"
      else if pa = str "/r1" then str "HTTP/1.1 301 M\r\nLocation: http://h/r2\r\n\r\n"
      else if pa = str "/r2" then str "HTTP/1.1 301 M\r\nLocation: http://h/r3\r\n\r\n"
      else if pa = str "/r3" then str "HTTP/1.1 301 M\r\nLocation: http://h/r4\r\n\r\n"
      else if pa = str "/r4" then str "HTTP/1.1 301 M\r\nLocation: http://h/ok\r\n\r\n"
      else str "HTTP/1.1 200 OK\r\ncontent-length: 2\r\n\r\nok"
    fs := fun _ => none
    gunzip := id
    now := 0 }

/-! ## General lemmas about the embedded primitives -/

/-! ### Termination facts for the stream-consuming loops -/

theorem pySplit1_snd_length {sep : Char} {s a b : Str}
    (h : pySplit1 sep s = some (a, b)) : b.length < s.length := by
  induction s generalizing a b with
  | nil => simp [pySplit1] at h
  | cons c rest ih =>
    simp only [pySplit1] at h
    split at h
    · cases h; simp
    · cases hr : pySplit1 sep rest with
      | none => rw [hr] at h; cases h
      | some p =>
        rw [hr] at h
        cases h
        have := ih hr
        simp
        omega

theorem readLine_length (s : Str) :
    (readLine s).1.length + (readLine s).2.length = s.length := by
  induction s with
  | nil => simp [readLine]
  | cons c rest ih =>
    simp only [readLine]
    split
    · simp [Nat.add_comm]
    · simp only [List.length_cons]
      omega

theorem readLine_fst_ne_nil {s : Str} (h : s ≠ []) : (readLine s).1 ≠ [] := by
  cases s with
  | nil => exact absurd rfl h
  | cons c rest => simp only [readLine]; split <;> simp

theorem readLine_snd_lt {s : Str} (h : s ≠ []) : (readLine s).2.length < s.length := by
  have hl := readLine_length s
  have hf := readLine_fst_ne_nil h
  have : 0 < (readLine s).1.length := List.length_pos.mpr hf
  omega

theorem splitAtSemi_length {s a b : Str} (h : splitAtSemi s = some (a, b)) :
    b.length < s.length := by
  induction s generalizing a b with
  | nil => simp [splitAtSemi] at h
  | cons c rest ih =>
    simp only [splitAtSemi] at h
    split at h
    · cases h; simp
    · cases hr : splitAtSemi rest with
      | none => rw [hr] at h; cases h
      | some p =>
        rw [hr] at h
        cases h
        have := ih hr
        simp
        omega

theorem dlookup_dinsert_self {α β : Type} [DecidableEq α] (l : List (α × β)) (k : α) (v : β) :
    dlookup (dinsert l k v) k = some v := by
  simp [dinsert, dlookup]

theorem dlookup_dinsert_ne {α β : Type} [DecidableEq α] (l : List (α × β)) {k k' : α} (v : β)
    (h : k' ≠ k) : dlookup (dinsert l k v) k' = dlookup l k' := by
  simp only [dinsert, dlookup, if_neg h, ddelete]
  induction l with
  | nil => rfl
  | cons p rest ih =>
    by_cases hp : p.1 = k
    · rw [List.filter_cons_of_neg (by simp [hp])]
      rw [ih]
      cases p with
      | mk a b => simp_all [dlookup, if_neg (show ¬ k' = a by simp_all)]
    · rw [List.filter_cons_of_pos (by simp [hp])]
      cases p with
      | mk a b =>
        by_cases hk : k' = a
        · simp [dlookup, hk]
        · simp only [dlookup, if_neg hk]
          exact ih

theorem dlookup_ddelete_self {α β : Type} [DecidableEq α] (l : List (α × β)) (k : α) :
    dlookup (ddelete l k) k = none := by
  induction l with
  | nil => rfl
  | cons p rest ih =>
    cases p with
    | mk a b =>
      by_cases hp : a = k
      · rw [ddelete, List.filter_cons_of_neg (by simp [hp])]
        rw [ddelete] at ih
        exact ih
      · rw [ddelete, List.filter_cons_of_pos (by simp [hp])]
        rw [dlookup, if_neg (fun he => hp he.symm)]
        rw [ddelete] at ih
        exact ih

theorem pySplit1_append {sep : Char} {xs : Str} (ys : Str) (h : sep ∉ xs) :
    pySplit1 sep (xs ++ sep :: ys) = some (xs, ys) := by
  induction xs with
  | nil => simp [pySplit1]
  | cons c rest ih =>
    have hc : ¬ c = sep := fun he => h (he ▸ List.mem_cons_self c rest)
    have hr : sep ∉ rest := fun hm => h (List.mem_cons_of_mem c hm)
    simp only [List.cons_append, pySplit1, List.append_eq, if_neg hc, ih hr]

theorem pySplit1_not_mem {sep : Char} {s : Str} (h : sep ∉ s) :
    pySplit1 sep s = none := by
  induction s with
  | nil => rfl
  | cons c rest ih =>
    have hc : ¬ c = sep := fun he => h (he ▸ List.mem_cons_self c rest)
    have hr : sep ∉ rest := fun hm => h (List.mem_cons_of_mem c hm)
    simp only [pySplit1, if_neg hc, ih hr]

theorem pySplit1_fst_not_mem {sep : Char} {s a b : Str}
    (h : pySplit1 sep s = some (a, b)) : sep ∉ a := by
  induction s generalizing a b with
  | nil => simp [pySplit1] at h
  | cons c rest ih =>
    simp only [pySplit1] at h
    split at h
    · cases h; simp
    · cases hr : pySplit1 sep rest with
      | none => rw [hr] at h; cases h
      | some p =>
        rw [hr] at h
        cases h
        intro hm
        rcases List.mem_cons.mp hm with hm | hm
        · rename_i hne _; exact hne hm.symm
        · exact ih hr hm

theorem pySplit1_fst_subset {sep : Char} {s a b : Str}
    (h : pySplit1 sep s = some (a, b)) : ∀ x ∈ a, x ∈ s := by
  induction s generalizing a b with
  | nil => simp [pySplit1] at h
  | cons c rest ih =>
    simp only [pySplit1] at h
    split at h
    · cases h; simp
    · cases hr : pySplit1 sep rest with
      | none => rw [hr] at h; cases h
      | some p =>
        rw [hr] at h
        cases h
        intro x hx
        rcases List.mem_cons.mp hx with hx | hx
        · exact hx ▸ List.mem_cons_self c rest
        · exact List.mem_cons_of_mem c (ih hr x hx)

theorem pyIn_true_of_mem {c : Char} {s : Str} (h : c ∈ s) : pyIn c s = true := by
  simp only [pyIn, List.any_eq_true, beq_iff_eq]
  exact ⟨c, h, rfl⟩

theorem pyIn_false_of_not_mem {c : Char} {s : Str} (h : c ∉ s) : pyIn c s = false := by
  simp only [pyIn, List.any_eq_false, beq_iff_eq]
  intro x hx he
  exact h (he ▸ hx)

theorem pySplitAll_not_mem {sep : Char} {s : Str} (h : sep ∉ s) :
    pySplitAll sep s = [s] := by
  induction s with
  | nil => rfl
  | cons c rest ih =>
    have hc : ¬ c = sep := fun he => h (he ▸ List.mem_cons_self c rest)
    have hr : sep ∉ rest := fun hm => h (List.mem_cons_of_mem c hm)
    simp only [pySplitAll, if_neg hc, ih hr]

theorem pySplitAll_append {sep : Char} {xs : Str} (ys : Str) (h : sep ∉ xs) :
    pySplitAll sep (xs ++ sep :: ys) = xs :: pySplitAll sep ys := by
  induction xs with
  | nil => simp [pySplitAll]
  | cons c rest ih =>
    have hc : ¬ c = sep := fun he => h (he ▸ List.mem_cons_self c rest)
    have hr : sep ∉ rest := fun hm => h (List.mem_cons_of_mem c hm)
    simp only [List.cons_append, pySplitAll, List.append_eq, if_neg hc, ih hr]

theorem dropWhile_of_all_false {p : Char → Bool} {s : Str}
    (h : ∀ c ∈ s, p c = false) : s.dropWhile p = s := by
  cases s with
  | nil => rfl
  | cons c rest =>
    rw [List.dropWhile_cons_of_neg]
    simp [h c (List.mem_cons_self c rest)]

theorem pyStrip_of_no_space {s : Str} (h : ∀ c ∈ s, isPySpace c = false) :
    pyStrip s = s := by
  rw [pyStrip, dropWhile_of_all_false h, dropWhile_of_all_false (by
    intro c hc
    exact h c (List.mem_reverse.mp hc)), List.reverse_reverse]

theorem digitVal_digitChar {n : Nat} (h : n < 10) :
    digitVal (Nat.digitChar n) = some n := by
  interval_cases n <;> rfl

theorem pyNatGo_append (acc : Nat) (xs ys : Str) :
    pyNatGo acc (xs ++ ys) =
      match pyNatGo acc xs with
      | none => none
      | some a => pyNatGo a ys := by
  induction xs generalizing acc with
  | nil => rfl
  | cons c rest ih =>
    cases hd : digitVal c with
    | none => simp [pyNatGo, hd]
    | some v => simp only [List.cons_append, pyNatGo, hd, List.append_eq, ih]

theorem natToStrF_ne_nil {f n : Nat} (h : n < f) : natToStrF f n ≠ [] := by
  cases f with
  | zero => omega
  | succ f' =>
    rw [natToStrF]
    split
    · simp
    · simp

theorem natToStrF_mem_digit {f n : Nat} (h : n < f) :
    ∀ c ∈ natToStrF f n, ∃ d, d < 10 ∧ c = Nat.digitChar d := by
  induction f generalizing n with
  | zero => omega
  | succ f' ih =>
    rw [natToStrF]
    split
    · intro c hc
      rename_i hn
      rcases List.mem_singleton.mp hc with rfl
      exact ⟨n, hn, rfl⟩
    · intro c hc
      rename_i hn
      rcases List.mem_append.mp hc with hc | hc
      · exact ih (by omega) c hc
      · rcases List.mem_singleton.mp hc with rfl
        exact ⟨n % 10, Nat.mod_lt _ (by omega), rfl⟩

theorem pyNatGo_natToStrF {f n : Nat} (h : n < f) :
    pyNatGo 0 (natToStrF f n) = some n := by
  induction f generalizing n with
  | zero => omega
  | succ f' ih =>
    rw [natToStrF]
    split
    · rename_i hn
      simp [pyNatGo, digitVal_digitChar hn]
    · rename_i hn
      have hdiv : n / 10 < f' := by
        have h1 : 0 < n := by omega
        have := Nat.div_lt_self h1 (show 1 < 10 by omega)
        omega
      rw [pyNatGo_append, ih hdiv]
      simp [pyNatGo, digitVal_digitChar (Nat.mod_lt n (show 0 < 10 by omega))]
      omega

theorem pyNat_natToStr (n : Nat) : pyNat (natToStr n) = some n := by
  rw [natToStr, pyNat, if_neg (natToStrF_ne_nil (Nat.lt_succ_self n))]
  exact pyNatGo_natToStrF (Nat.lt_succ_self n)

theorem natToStr_mem_digit (n : Nat) :
    ∀ c ∈ natToStr n, ∃ d, d < 10 ∧ c = Nat.digitChar d :=
  natToStrF_mem_digit (Nat.lt_succ_self n)

theorem digitChar_ne_minus {d : Nat} (h : d < 10) : Nat.digitChar d ≠ '-' := by
  interval_cases d <;> decide

theorem digitChar_ne_plus {d : Nat} (h : d < 10) : Nat.digitChar d ≠ '+' := by
  interval_cases d <;> decide

theorem pyInt_natToStr (n : Nat) : pyInt (natToStr n) = some (n : Int) := by
  cases hs : natToStr n with
  | nil => exact absurd hs (natToStrF_ne_nil (Nat.lt_succ_self n))
  | cons c t =>
    have hc := natToStr_mem_digit n c (hs ▸ List.mem_cons_self c t)
    rcases hc with ⟨d, hd, rfl⟩
    rw [pyInt, if_neg (digitChar_ne_minus hd), if_neg (digitChar_ne_plus hd), ← hs,
      pyNat_natToStr]
    rfl

theorem pyInt_intToStr (i : Int) : pyInt (intToStr i) = some i := by
  rw [intToStr]
  split
  · rename_i hneg
    rw [pyInt]
    rw [if_pos rfl, pyNat_natToStr]
    have ht : ((-i).toNat : Int) = -i := Int.toNat_of_nonneg (by omega)
    simp [ht]
  · rename_i hpos
    rw [pyInt_natToStr]
    congr 1
    omega

theorem intToStr_mem (i : Int) :
    ∀ c ∈ intToStr i, c = '-' ∨ ∃ d, d < 10 ∧ c = Nat.digitChar d := by
  rw [intToStr]
  split
  · intro c hc
    rcases List.mem_cons.mp hc with rfl | hc
    · exact Or.inl rfl
    · exact Or.inr (natToStr_mem_digit _ c hc)
  · intro c hc
    exact Or.inr (natToStr_mem_digit _ c hc)

theorem readLine_append {xs : Str} (ys : Str) (h : '\n' ∉ xs) :
    readLine (xs ++ '\n' :: ys) = (xs ++ ['\n'], ys) := by
  induction xs with
  | nil => simp [readLine]
  | cons c rest ih =>
    have hc : ¬ c = '\n' := fun he => h (he ▸ List.mem_cons_self c rest)
    have hr : '\n' ∉ rest := fun hm => h (List.mem_cons_of_mem c hm)
    simp only [List.cons_append, readLine, List.append_eq, if_neg hc, ih hr]

theorem pyStartswith_append_self (xs ys : Str) : pyStartswith xs (xs ++ ys) = true := by
  induction xs with
  | nil => rfl
  | cons c rest ih => simp [pyStartswith, ih]

theorem not_mem_of_pyIn_false {c : Char} {s : Str} (h : pyIn c s = false) : c ∉ s := by
  intro hm
  rw [pyIn_true_of_mem hm] at h
  cases h

theorem not_mem_natToStr {c : Char} (n : Nat)
    (hd : ∀ d, d < 10 → c ≠ Nat.digitChar d) : c ∉ natToStr n := by
  intro hm
  rcases natToStr_mem_digit n c hm with ⟨d, hlt, rfl⟩
  exact hd d hlt rfl

theorem not_mem_intToStr {c : Char} (i : Int) (hm1 : c ≠ '-')
    (hd : ∀ d, d < 10 → c ≠ Nat.digitChar d) : c ∉ intToStr i := by
  intro hm
  rcases intToStr_mem i c hm with rfl | ⟨d, hlt, rfl⟩
  · exact hm1 rfl
  · exact hd d hlt rfl

theorem containsSubstr_of_append (pre n post : Str) :
    containsSubstr (pre ++ (n ++ post)) n = true := by
  induction pre with
  | nil =>
    cases hn : n ++ post with
    | nil =>
      have : n = [] := by
        cases n with
        | nil => rfl
        | cons a b => simp at hn
      simp [this, containsSubstr, pyStartswith]
    | cons c rest =>
      rw [List.nil_append, containsSubstr]
      have hpre : pyStartswith n (c :: rest) = true := by
        rw [← hn]
        exact pyStartswith_append_self n post
      rw [hpre]
      simp
  | cons c rest ih =>
    rw [List.cons_append, containsSubstr, ih]
    simp

/-! ## Lemmas about `URL.__init__` on well-formed http/https inputs -/

theorem parseWebTail_port (sec : Bool) {h prt : Str} (pr : Str) {pn : Int}
    (hh1 : ':' ∉ h) (hh2 : '/' ∉ h) (hp2 : '/' ∉ prt) (hpn : pyInt prt = some pn) :
    parseWebTail sec (h ++ ':' :: (prt ++ '/' :: pr)) = some (.web sec h pn ('/' :: pr)) := by
  have hmem : pyIn '/' (h ++ ':' :: (prt ++ '/' :: pr)) = true :=
    pyIn_true_of_mem (by simp)
  have hsplit : pySplit1 '/' (h ++ ':' :: (prt ++ '/' :: pr)) = some (h ++ ':' :: prt, pr) := by
    rw [show h ++ ':' :: (prt ++ '/' :: pr) = (h ++ ':' :: prt) ++ '/' :: pr by simp]
    refine pySplit1_append pr ?_
    intro hm
    rcases List.mem_append.mp hm with hm | hm
    · exact hh2 hm
    · rcases List.mem_cons.mp hm with hm | hm
      · exact absurd hm (by decide)
      · exact hp2 hm
  have hmem2 : pyIn ':' (h ++ ':' :: prt) = true := pyIn_true_of_mem (by simp)
  have hsplit2 : pySplit1 ':' (h ++ ':' :: prt) = some (h, prt) := pySplit1_append prt hh1
  simp only [parseWebTail, hmem, if_true, hsplit, hmem2, hsplit2, hpn]

theorem parseWebTail_noport (sec : Bool) {h : Str} (pr : Str)
    (hh1 : ':' ∉ h) (hh2 : '/' ∉ h) :
    parseWebTail sec (h ++ '/' :: pr) =
      some (.web sec h (if sec then 443 else 80) ('/' :: pr)) := by
  have hmem : pyIn '/' (h ++ '/' :: pr) = true := pyIn_true_of_mem (by simp)
  have hsplit : pySplit1 '/' (h ++ '/' :: pr) = some (h, pr) := pySplit1_append pr hh2
  have hni : pyIn ':' h = false := pyIn_false_of_not_mem hh1
  simp only [parseWebTail, hmem, if_true, hsplit, hni, Bool.false_eq_true, if_false]

theorem parseWebTail_noslash (sec : Bool) {h : Str}
    (hh1 : ':' ∉ h) (hh2 : '/' ∉ h) :
    parseWebTail sec h = some (.web sec h (if sec then 443 else 80) ['/']) := by
  have hni : pyIn '/' h = false := pyIn_false_of_not_mem hh2
  have hsplit : pySplit1 '/' (h ++ ['/']) = some (h, []) := pySplit1_append [] hh2
  have hni2 : pyIn ':' h = false := pyIn_false_of_not_mem hh1
  simp only [parseWebTail, hni, Bool.false_eq_true, if_false, hsplit, hni2]

theorem parseURL_web_reduce (sec : Bool) (X : Str) :
    parseURL (webScheme sec ++ str "://" ++ X) = parseWebTail sec X := by
  cases sec <;> rfl

theorem parseWebTail_inv {sb : Bool} {b : Str} {sec : Bool} {h : Str} {pn : Int} {pa : Str}
    (hp : parseWebTail sb b = some (.web sec h pn pa)) :
    ':' ∉ h ∧ '/' ∉ h ∧ ∃ pr, pa = '/' :: pr := by
  rw [parseWebTail] at hp
  split at hp
  · cases hp
  · rename_i host0 p heq
    split at hp
    · split at hp
      · cases hp
      · rename_i hst prt heq2
        split at hp
        · cases hp
        · rename_i pn' hpn'
          have hinj := hp
          rw [Option.some.injEq, ParsedURL.web.injEq] at hinj
          obtain ⟨_, rfl, _, rfl⟩ := hinj
          refine ⟨pySplit1_fst_not_mem heq2, ?_, p, rfl⟩
          intro hm
          exact pySplit1_fst_not_mem heq (pySplit1_fst_subset heq2 _ hm)
    · rename_i hni
      have hinj := hp
      rw [Option.some.injEq, ParsedURL.web.injEq] at hinj
      obtain ⟨_, rfl, _, rfl⟩ := hinj
      refine ⟨not_mem_of_pyIn_false (by simpa using hni), pySplit1_fst_not_mem heq, p, rfl⟩

theorem parseURL_web_inv {s : Str} {sec : Bool} {h : Str} {pn : Int} {pa : Str}
    (hp : parseURL s = some (.web sec h pn pa)) :
    ':' ∉ h ∧ '/' ∉ h ∧ ∃ pr, pa = '/' :: pr := by
  rw [parseURL] at hp
  simp only [parseURLF] at hp
  split at hp
  · cases hp
  · rename_i scheme body0 heq
    by_cases h1 : scheme = str "data"
    · rw [if_pos h1] at hp
      split at hp <;> simp at hp
    · rw [if_neg h1] at hp
      by_cases h2 : scheme = str "view-source"
      · rw [if_pos h2] at hp
        split at hp <;> simp at hp
      · rw [if_neg h2] at hp
        by_cases h3 : scheme = str "http" ∨ scheme = str "https" ∨ scheme = str "file"
        · rw [if_pos h3] at hp
          by_cases h4 : scheme = str "file"
          · rw [if_pos h4] at hp
            simp at hp
          · rw [if_neg h4] at hp
            exact parseWebTail_inv hp
        · rw [if_neg h3] at hp
          cases hp

/-! ## Lemmas about `URL.request` -/

theorem poolObtain_no_netIO (sec : Bool) (host : Str) (port : Int) (pool : Pool) :
    ∀ e ∈ (poolObtain sec host port pool).2.2, isNetIO e = false := by
  intro e he
  rw [poolObtain] at he
  cases hd : dlookup pool (host, port) with
  | some t =>
    rw [hd] at he
    simp at he
  | none =>
    rw [hd] at he
    cases sec
    · simp at he
      rw [he]
      rfl
    · simp at he
      rcases he with rfl | rfl <;> rfl

theorem cacheLookup_nil (url : Str) (now : Int) : cacheLookup [] url now = (none, []) := rfl

theorem cacheLookup_miss {c : Cache} {url : Str} (now : Int)
    (hm : dlookup c url = none) : cacheLookup c url now = (none, c) := by
  rw [cacheLookup, hm]

theorem cacheLookup_fresh {c : Cache} {url : Str} {now : Int} {b : Str} {e : Int}
    (hl : dlookup c url = some (b, some e)) (hfresh : now < e) :
    cacheLookup c url now = (some b, c) := by
  rw [cacheLookup, hl]
  simp only [if_pos hfresh]

theorem cacheLookup_never {c : Cache} {url : Str} (now : Int) {b : Str}
    (hl : dlookup c url = some (b, none)) : cacheLookup c url now = (some b, c) := by
  rw [cacheLookup, hl]

theorem cacheLookup_expired {c : Cache} {url : Str} {now : Int} {b : Str} {e : Int}
    (hl : dlookup c url = some (b, some e)) (hexp : ¬ now < e) :
    cacheLookup c url now = (none, ddelete c url) := by
  rw [cacheLookup, hl]
  simp only [if_neg hexp]

theorem request_hit (env : Env) (fuel : Nat) (sec : Bool) (host : Str) (port : Int)
    (path : Str) (redirects : Nat) (st : RState) {b : Str} {c2 : Cache}
    (hc : cacheLookup st.cache (urlStr sec host path) env.now = (some b, c2)) :
    request env (fuel + 1) (.web sec host port path) redirects st =
      ⟨.ok b, ⟨(poolObtain sec host port st.pool).2.1, c2⟩,
        (poolObtain sec host port st.pool).2.2⟩ := by
  simp only [request, httpPhase1, hc]

theorem request_3xx_limit (env : Env) (fuel : Nat) (sec : Bool) (host : Str) (port : Int)
    (path : Str) (redirects : Nat) (st : RState) {c2 : Cache}
    {ver ss ex : Str} {hdrs : Headers} {rest : Str} {status : Int}
    (hc : cacheLookup st.cache (urlStr sec host path) env.now = (none, c2))
    (hp : parseRespHead (env.net host port path) = some (ver, ss, ex, hdrs, rest))
    (hi : pyInt ss = some status)
    (h3 : 300 ≤ status ∧ status < 400) (hr : 5 ≤ redirects) :
    request env (fuel + 1) (.web sec host port path) redirects st =
      ⟨.error .tooManyRedirects, ⟨(poolObtain sec host port st.pool).2.1, c2⟩,
        (poolObtain sec host port st.pool).2.2 ++
          [.send (framedRequest path host), .recv host port path]⟩ := by
  simp only [request, httpPhase1, hc, hp, hi, if_pos h3, if_pos hr]

theorem request_3xx_follow (env : Env) (fuel : Nat) (sec : Bool) (host : Str) (port : Int)
    (path : Str) (redirects : Nat) (st : RState) {c2 : Cache}
    {ver ss ex : Str} {hdrs : Headers} {rest : Str} {status : Int} {loc : Str}
    {ru : ParsedURL}
    (hc : cacheLookup st.cache (urlStr sec host path) env.now = (none, c2))
    (hp : parseRespHead (env.net host port path) = some (ver, ss, ex, hdrs, rest))
    (hi : pyInt ss = some status)
    (h3 : 300 ≤ status ∧ status < 400) (hr : ¬ 5 ≤ redirects)
    (hl : dlookup hdrs (str "location") = some loc) (hne : loc ≠ [])
    (hru : parseURL (resolveLocation (webScheme sec) host path loc) = some ru) :
    request env (fuel + 1) (.web sec host port path) redirects st =
      ⟨(request env fuel ru (redirects + 1)
          ⟨(poolObtain sec host port st.pool).2.1, c2⟩).result,
       (request env fuel ru (redirects + 1)
          ⟨(poolObtain sec host port st.pool).2.1, c2⟩).st,
       ((poolObtain sec host port st.pool).2.2 ++
          [.send (framedRequest path host), .recv host port path]) ++
         (request env fuel ru (redirects + 1)
            ⟨(poolObtain sec host port st.pool).2.1, c2⟩).events⟩ := by
  simp only [request, httpPhase1, hc, hp, hi, if_pos h3, if_neg hr, hl, if_neg hne, hru]

theorem request_non3xx (env : Env) (fuel : Nat) (sec : Bool) (host : Str) (port : Int)
    (path : Str) (redirects : Nat) (st : RState) {c2 : Cache}
    {ver ss ex : Str} {hdrs : Headers} {rest : Str} {status : Int} {bb : Str}
    (hc : cacheLookup st.cache (urlStr sec host path) env.now = (none, c2))
    (hp : parseRespHead (env.net host port path) = some (ver, ss, ex, hdrs, rest))
    (hi : pyInt ss = some status)
    (h3 : ¬ (300 ≤ status ∧ status < 400))
    (hb : readBody hdrs rest = some bb) :
    request env (fuel + 1) (.web sec host port path) redirects st =
      ⟨.ok (if hGet hdrs (str "content-encoding") [] = str "gzip"
              then env.gunzip bb else bb),
       ⟨(poolObtain sec host port st.pool).2.1,
        if status = 200 then
          match parseMaxAge (hGet hdrs (str "cache-control") []) with
          | some ma =>
            dinsert c2 (urlStr sec host path)
              (if hGet hdrs (str "content-encoding") [] = str "gzip"
                 then env.gunzip bb else bb, some (env.now + ma))
          | none => c2
        else c2⟩,
       (poolObtain sec host port st.pool).2.2 ++
         [.send (framedRequest path host), .recv host port path]⟩ := by
  simp only [request, httpPhase1, hc, hp, hi, if_neg h3, hb]

theorem httpPhase1_miss_events (env : Env) (sec : Bool) (host : Str) (port : Int)
    (path : Str) (redirects : Nat) (st : RState) {c2 : Cache}
    (hc : cacheLookup st.cache (urlStr sec host path) env.now = (none, c2)) :
    phase1Events (httpPhase1 env sec host port path redirects st) =
      (poolObtain sec host port st.pool).2.2 ++
        [.send (framedRequest path host), .recv host port path] := by
  simp only [httpPhase1, hc]
  repeat' split
  all_goals rfl

theorem httpPhase1_pool (env : Env) (sec : Bool) (host : Str) (port : Int)
    (path : Str) (redirects : Nat) (st : RState) :
    (phase1St (httpPhase1 env sec host port path redirects st)).pool =
      (poolObtain sec host port st.pool).2.1 := by
  simp only [httpPhase1]
  repeat' split
  all_goals rfl

theorem httpPhase1_events_cases (env : Env) (sec : Bool) (host : Str) (port : Int)
    (path : Str) (redirects : Nat) (st : RState) :
    phase1Events (httpPhase1 env sec host port path redirects st) =
        (poolObtain sec host port st.pool).2.2 ∨
      phase1Events (httpPhase1 env sec host port path redirects st) =
        (poolObtain sec host port st.pool).2.2 ++
          [.send (framedRequest path host), .recv host port path] := by
  simp only [httpPhase1]
  repeat' split
  all_goals simp [phase1Events]

theorem dinsert_keys_nodup {α β : Type} [DecidableEq α] {l : List (α × β)} (k : α) (v : β)
    (h : (l.map Prod.fst).Nodup) : ((dinsert l k v).map Prod.fst).Nodup := by
  rw [dinsert, ddelete, List.map_cons]
  refine List.Nodup.cons ?_ ?_
  · intro hm
    rcases List.mem_map.mp hm with ⟨p, hp, hpk⟩
    rcases List.mem_filter.mp hp with ⟨_, hcond⟩
    simp at hcond
    exact hcond hpk
  · exact h.sublist (List.Sublist.map Prod.fst (List.filter_sublist l))

theorem poolObtain_pool_nodup (sec : Bool) (host : Str) (port : Int) {pool : Pool}
    (h : (pool.map Prod.fst).Nodup) :
    (((poolObtain sec host port pool).2.1).map Prod.fst).Nodup := by
  rw [poolObtain]
  cases hd : dlookup pool (host, port) with
  | some t => exact h
  | none => exact dinsert_keys_nodup _ _ h

theorem poolObtain_mono (sec : Bool) (host : Str) (port : Int) {pool : Pool}
    {k : Str × Int} {t : Transport} (h : dlookup pool k = some t) :
    dlookup (poolObtain sec host port pool).2.1 k = some t := by
  rw [poolObtain]
  cases hd : dlookup pool (host, port) with
  | some t' => exact h
  | none =>
    have hne : k ≠ (host, port) := by
      intro he
      rw [he, hd] at h
      cases h
    rw [dlookup_dinsert_ne _ _ hne]
    exact h

theorem poolObtain_no_connect (sec : Bool) (host : Str) (port : Int) {pool : Pool}
    {k : Str × Int} {t : Transport} (h : dlookup pool k = some t) :
    Event.connect k.1 k.2 ∉ (poolObtain sec host port pool).2.2 := by
  rw [poolObtain]
  cases hd : dlookup pool (host, port) with
  | some t' => simp
  | none =>
    have hne : k ≠ (host, port) := by
      intro he
      rw [he, hd] at h
      cases h
    intro hm
    have hkk : k.1 = host ∧ k.2 = port := by
      cases sec <;> simpa using hm
    obtain ⟨h1, h2⟩ := hkk
    refine hne ?_
    subst h1
    subst h2
    rfl

theorem request_pool_nodup (env : Env) : ∀ (fuel : Nat) (u : ParsedURL) (redirects : Nat)
    (st : RState), (st.pool.map Prod.fst).Nodup →
    (((request env fuel u redirects st).st.pool).map Prod.fst).Nodup := by
  intro fuel
  induction fuel with
  | zero => intro u r st h; exact h
  | succ f ih =>
    intro u r st h
    cases u with
    | viewSource a =>
      simp only [request]
      exact ih a 0 st h
    | file p =>
      simp only [request]
      cases env.fs p <;> exact h
    | data m d => exact h
    | web sec host port path =>
      have hpool := httpPhase1_pool env sec host port path r st
      simp only [request]
      cases hq : httpPhase1 env sec host port path r st with
      | done o =>
        rw [hq] at hpool
        simp only [phase1St] at hpool
        rw [hpool]
        exact poolObtain_pool_nodup sec host port h
      | redir ru st' ev =>
        rw [hq] at hpool
        simp only [phase1St] at hpool
        refine ih ru (r + 1) st' ?_
        rw [hpool]
        exact poolObtain_pool_nodup sec host port h

theorem request_pool_mono (env : Env) : ∀ (fuel : Nat) (u : ParsedURL) (redirects : Nat)
    (st : RState) (k : Str × Int) (t : Transport), dlookup st.pool k = some t →
    dlookup (request env fuel u redirects st).st.pool k = some t := by
  intro fuel
  induction fuel with
  | zero => intro u r st k t h; exact h
  | succ f ih =>
    intro u r st k t h
    cases u with
    | viewSource a =>
      simp only [request]
      exact ih a 0 st k t h
    | file p =>
      simp only [request]
      cases env.fs p <;> exact h
    | data m d => exact h
    | web sec host port path =>
      have hpool := httpPhase1_pool env sec host port path r st
      simp only [request]
      cases hq : httpPhase1 env sec host port path r st with
      | done o =>
        rw [hq] at hpool
        simp only [phase1St] at hpool
        rw [hpool]
        exact poolObtain_mono sec host port h
      | redir ru st' ev =>
        rw [hq] at hpool
        simp only [phase1St] at hpool
        refine ih ru (r + 1) st' k t ?_
        rw [hpool]
        exact poolObtain_mono sec host port h

theorem request_no_connect (env : Env) : ∀ (fuel : Nat) (u : ParsedURL) (redirects : Nat)
    (st : RState) (k : Str × Int) (t : Transport), dlookup st.pool k = some t →
    Event.connect k.1 k.2 ∉ (request env fuel u redirects st).events := by
  intro fuel
  induction fuel with
  | zero => intro u r st k t h hm; cases hm
  | succ f ih =>
    intro u r st k t h
    cases u with
    | viewSource a =>
      simp only [request]
      exact ih a 0 st k t h
    | file p =>
      simp only [request]
      cases env.fs p <;> simp
    | data m d => simp [request]
    | web sec host port path =>
      have hpool := httpPhase1_pool env sec host port path r st
      have hev := httpPhase1_events_cases env sec host port path r st
      have hnc : Event.connect k.1 k.2 ∉
          phase1Events (httpPhase1 env sec host port path r st) := by
        rcases hev with hev | hev <;> rw [hev]
        · exact poolObtain_no_connect sec host port h
        · intro hm
          rcases List.mem_append.mp hm with hm | hm
          · exact poolObtain_no_connect sec host port h hm
          · simp at hm
      simp only [request]
      cases hq : httpPhase1 env sec host port path r st with
      | done o =>
        rw [hq] at hnc
        simp only [phase1Events] at hnc
        exact hnc
      | redir ru st' ev =>
        rw [hq] at hnc hpool
        simp only [phase1Events] at hnc
        simp only [phase1St] at hpool
        intro hm
        rcases List.mem_append.mp hm with hm | hm
        · exact hnc hm
        · refine ih ru (r + 1) st' k t ?_ hm
          rw [hpool]
          exact poolObtain_mono sec host port h

theorem request_miss_send (env : Env) (fuel : Nat) (sec : Bool) (host : Str) (port : Int)
    (path : Str) (redirects : Nat) (st : RState) {c2 : Cache}
    (hc : cacheLookup st.cache (urlStr sec host path) env.now = (none, c2)) :
    Event.send (framedRequest path host) ∈
      (request env (fuel + 1) (.web sec host port path) redirects st).events := by
  have hev := httpPhase1_miss_events env sec host port path redirects st hc
  cases hq : httpPhase1 env sec host port path redirects st with
  | done o =>
    rw [hq] at hev
    simp only [phase1Events] at hev
    simp only [request, hq, hev]
    simp
  | redir ru st' ev =>
    rw [hq] at hev
    simp only [phase1Events] at hev
    simp only [request, hq, hev]
    simp

/-! ## Lemmas about `decode_entities` -/

theorem splitAtSemi_append {xs : Str} (ys : Str) (h : ';' ∉ xs) :
    splitAtSemi (xs ++ ';' :: ys) = some (xs ++ [';'], ys) := by
  induction xs with
  | nil => simp [splitAtSemi]
  | cons c rest ih =>
    have hc : ¬ c = ';' := fun he => h (he ▸ List.mem_cons_self c rest)
    have hr : ';' ∉ rest := fun hm => h (List.mem_cons_of_mem c hm)
    simp only [List.cons_append, splitAtSemi, List.append_eq, if_neg hc, ih hr]

theorem splitAtSemi_none {s : Str} (h : ';' ∉ s) : splitAtSemi s = none := by
  induction s with
  | nil => rfl
  | cons c rest ih =>
    have hc : ¬ c = ';' := fun he => h (he ▸ List.mem_cons_self c rest)
    have hr : ';' ∉ rest := fun hm => h (List.mem_cons_of_mem c hm)
    simp only [splitAtSemi, if_neg hc, ih hr]

theorem decodeEntF_irrel : ∀ (f : Nat) {f' : Nat} (t : Str), t.length < f → t.length < f' →
    decodeEntF f t = decodeEntF f' t := by
  intro f
  induction f with
  | zero => intro f' t h _; omega
  | succ f ih =>
    intro f' t h h'
    cases f' with
    | zero => omega
    | succ f' =>
      cases t with
      | nil => rfl
      | cons c rest =>
        have hrest : rest.length < f := by simp at h; omega
        have hrest' : rest.length < f' := by simp at h'; omega
        simp only [decodeEntF]
        by_cases hc : c = '&'
        · rw [if_pos hc, if_pos hc]
          cases hs : splitAtSemi rest with
          | none =>
            dsimp only
            rw [@ih f' rest hrest hrest']
          | some p =>
            obtain ⟨a, after⟩ := p
            have hafter : after.length < rest.length := splitAtSemi_length hs
            dsimp only
            cases ht : dlookup ENTITIES (c :: a) with
            | some repl =>
              dsimp only
              rw [@ih f' after (by omega) (by omega)]
            | none =>
              dsimp only
              rw [@ih f' rest hrest hrest']
        · rw [if_neg hc, if_neg hc, @ih f' rest hrest hrest']

theorem decode_entities_entity (mid r : Str) (t : Str) (hsem : ';' ∉ mid)
    (he : dlookup ENTITIES ('&' :: (mid ++ [';'])) = some r) :
    decode_entities (('&' :: (mid ++ [';'])) ++ t) = r ++ decode_entities t := by
  rw [show (('&' :: (mid ++ [';'])) ++ t) = '&' :: (mid ++ ';' :: t) by simp]
  rw [decode_entities, decode_entities]
  rw [show ('&' :: (mid ++ ';' :: t)).length + 1 = (mid ++ ';' :: t).length + 1 + 1 by simp]
  rw [decodeEntF]
  rw [if_pos rfl, splitAtSemi_append t hsem]
  dsimp only
  rw [he]
  dsimp only
  congr 1
  refine decodeEntF_irrel _ t ?_ (Nat.lt_succ_self _)
  simp only [List.length_append, List.length_cons]
  omega

theorem decode_entities_no_amp : ∀ {t : Str}, '&' ∉ t → decode_entities t = t := by
  have main : ∀ (f : Nat) (t : Str), t.length < f → '&' ∉ t → decodeEntF f t = t := by
    intro f
    induction f with
    | zero => intro t h _; omega
    | succ f ih =>
      intro t h ha
      cases t with
      | nil => rfl
      | cons c rest =>
        have hc : ¬ c = '&' := fun he => ha (he ▸ List.mem_cons_self c rest)
        have hr : '&' ∉ rest := fun hm => ha (List.mem_cons_of_mem c hm)
        simp only [decodeEntF, if_neg hc]
        rw [ih rest (by simp at h; omega) hr]
  intro t ha
  exact main _ t (Nat.lt_succ_self _) ha

theorem decode_entities_no_semi : ∀ {t : Str}, ';' ∉ t → decode_entities t = t := by
  have main : ∀ (f : Nat) (t : Str), t.length < f → ';' ∉ t → decodeEntF f t = t := by
    intro f
    induction f with
    | zero => intro t h _; omega
    | succ f ih =>
      intro t h hs
      cases t with
      | nil => rfl
      | cons c rest =>
        have hr : ';' ∉ rest := fun hm => hs (List.mem_cons_of_mem c hm)
        have hrec := ih rest (by simp at h; omega) hr
        simp only [decodeEntF]
        by_cases hc : c = '&'
        · rw [if_pos hc, splitAtSemi_none hr, hrec]
        · rw [if_neg hc, hrec]
  intro t hs
  exact main _ t (Nat.lt_succ_self _) hs

theorem decode_entities_amp_skip {rest a after : Str}
    (hs : splitAtSemi rest = some (a, after))
    (hm : dlookup ENTITIES ('&' :: a) = none) :
    decode_entities ('&' :: rest) = '&' :: decode_entities rest := by
  rw [decode_entities, decode_entities]
  rw [show ('&' :: rest).length + 1 = rest.length + 1 + 1 by simp]
  rw [decodeEntF]
  rw [if_pos rfl, hs]
  dsimp only
  rw [hm]

/-! ## Lemmas about the chunked-transfer loop -/

theorem chunkEncode_length (l : List (Str × Str)) :
    l.length ≤ (chunkEncode l).length := by
  induction l with
  | nil => simp [chunkEncode]
  | cons sc rest ih =>
    rw [chunkEncode, List.length_append] at ih
    rw [chunkEncode, List.map_cons, List.flatten_cons]
    simp only [List.length_append, List.length_cons,
      show (str "\r\n").length = 2 from rfl,
      show (str "0\r\n\r\n").length = 5 from rfl] at ih ⊢
    omega

theorem readChunksF_encode : ∀ (f : Nat) (l : List (Str × Str)) (tail : Str),
    l.length < f →
    (∀ sc ∈ l, '\n' ∉ sc.1 ∧ sc.2 ≠ [] ∧
       pyIntHex (pyStrip (sc.1 ++ str "\r\n")) = some sc.2.length) →
    readChunksF f (chunkEncode l ++ tail) = some ((l.map Prod.snd).flatten, tail) := by
  intro f
  induction f with
  | zero => intro l tail h _; omega
  | succ f ih =>
    intro l tail hlen hok
    cases l with
    | nil =>
      rw [show chunkEncode [] ++ tail = str "0\r" ++ '\n' :: (str "\r" ++ '\n' :: tail)
        from rfl]
      have hrl1 := readLine_append (str "\r" ++ '\n' :: tail)
        (show '\n' ∉ str "0\r" by decide)
      have hrl2 := readLine_append tail (show '\n' ∉ str "\r" by decide)
      simp only [readChunksF, if_neg (show ¬ (str "0\r" ++ '\n' :: (str "\r" ++ '\n' :: tail) = [])
        by simp [str]), hrl1,
        show pyIntHex (pyStrip (str "0\r" ++ ['\n'])) = some 0 from rfl, hrl2]
      simp
    | cons sc l' =>
      obtain ⟨sz, c⟩ := sc
      obtain ⟨hnl, hcne, hiv⟩ := hok (sz, c) (List.mem_cons_self _ _)
      have hstream : chunkEncode ((sz, c) :: l') ++ tail =
          (sz ++ ['\r']) ++ '\n' :: (c ++ '\r' :: '\n' :: (chunkEncode l' ++ tail)) := by
        simp [chunkEncode, str]
      have hnl' : '\n' ∉ sz ++ ['\r'] := by
        intro hm
        rcases List.mem_append.mp hm with hm | hm
        · exact hnl hm
        · simp at hm
      have hrl := readLine_append (c ++ '\r' :: '\n' :: (chunkEncode l' ++ tail)) hnl'
      have hline : pyIntHex (pyStrip ((sz ++ ['\r']) ++ ['\n'])) = some c.length := by
        rw [show (sz ++ ['\r']) ++ ['\n'] = sz ++ str "\r\n" by simp [str]]
        exact hiv
      obtain ⟨n, hn⟩ : ∃ n, c.length = n + 1 := by
        cases hc : c with
        | nil => exact absurd hc hcne
        | cons x xs => exact ⟨xs.length, by simp⟩
      rw [hn] at hline
      have hq1 : readN (n + 1) (c ++ '\r' :: '\n' :: (chunkEncode l' ++ tail)) =
          (c, '\r' :: '\n' :: (chunkEncode l' ++ tail)) := by
        rw [readN, ← hn, List.take_left, List.drop_left]
      have hq2 : readN 2 ('\r' :: '\n' :: (chunkEncode l' ++ tail)) =
          (['\r', '\n'], chunkEncode l' ++ tail) := rfl
      have hih := ih l' tail (by simp at hlen; omega)
        (fun sc hsc => hok sc (List.mem_cons_of_mem _ hsc))
      rw [hstream]
      simp only [readChunksF, if_neg (show
        ¬ ((sz ++ ['\r']) ++ '\n' :: (c ++ '\r' :: '\n' :: (chunkEncode l' ++ tail)) = [])
        by simp), hrl, hline, hq1, hq2, hih]
      simp

/-! ## Lemmas about the `max-age` extraction -/

theorem containsSubstr_of_prefix (n post : Str) : containsSubstr (n ++ post) n = true := by
  have := containsSubstr_of_append [] n post
  simpa using this

theorem isPySpace_digitChar {d : Nat} (h : d < 10) : isPySpace (Nat.digitChar d) = false := by
  interval_cases d <;> rfl

theorem parseMaxAge_well_formed (i : Int) :
    parseMaxAge (str "max-age=" ++ intToStr i) = some i := by
  have hdigit : ∀ c : Char, (∃ d, d < 10 ∧ c = Nat.digitChar d) → c ≠ ',' ∧ c ≠ '=' ∧
      isPySpace c = false := by
    rintro c ⟨d, hd, rfl⟩
    refine ⟨?_, ?_, isPySpace_digitChar hd⟩ <;> interval_cases d <;> decide
  have hsub : containsSubstr (str "max-age=" ++ intToStr i) (str "max-age=") = true :=
    containsSubstr_of_prefix _ _
  have hnc : ',' ∉ str "max-age=" ++ intToStr i := by
    intro hm
    rcases List.mem_append.mp hm with hm | hm
    · exact absurd hm (by decide)
    · rcases intToStr_mem i _ hm with heq | hdc
      · exact absurd heq (by decide)
      · exact (hdigit _ hdc).1 rfl
  have hnospace : ∀ c ∈ str "max-age=" ++ intToStr i, isPySpace c = false := by
    intro c hc
    rcases List.mem_append.mp hc with hc | hc
    · have hc' : c ∈ ['m', 'a', 'x', '-', 'a', 'g', 'e', '='] := hc
      fin_cases hc' <;> rfl
    · rcases intToStr_mem i c hc with rfl | hdc
      · rfl
      · exact (hdigit _ hdc).2.2
  have hne : '=' ∉ intToStr i := by
    intro hm
    rcases intToStr_mem i _ hm with heq | hdc
    · exact absurd heq (by decide)
    · exact (hdigit _ hdc).2.1 rfl
  have hsplit2 : pySplitAll '=' (str "max-age=" ++ intToStr i) =
      [str "max-age", intToStr i] := by
    rw [show str "max-age=" ++ intToStr i = str "max-age" ++ '=' :: intToStr i by simp [str]]
    rw [pySplitAll_append _ (by decide), pySplitAll_not_mem hne]
  rw [parseMaxAge, if_pos hsub, pySplitAll_not_mem hnc, findMaxAge]
  rw [pyStrip_of_no_space hnospace]
  rw [show pyStartswith (str "max-age=") (str "max-age=" ++ intToStr i) = true from
    pyStartswith_append_self _ _]
  rw [if_pos rfl, hsplit2]
  rw [show ([str "max-age", intToStr i].get? 1) = some (intToStr i) from rfl]
  exact pyInt_intToStr i

theorem parseMaxAge_absent {cc : Str}
    (h : containsSubstr cc (str "max-age=") = false) : parseMaxAge cc = none := by
  rw [parseMaxAge, h]
  simp

/-! ## The redirect chain -/

theorem redirect_chain (env : Env) (sc : Nat → Bool) (hs : Nat → Str) (pt : Nat → Int)
    (pth : Nat → Str) (ver ss ex : Nat → Str) (hd : Nat → Headers) (rs : Nat → Str)
    (stc : Nat → Int) (lc : Nat → Str) (R : Except ReqError Str)
    (Hresp : ∀ i, i < 5 → parseRespHead (env.net (hs i) (pt i) (pth i)) =
       some (ver i, ss i, ex i, hd i, rs i))
    (Hst : ∀ i, i < 5 → pyInt (ss i) = some (stc i) ∧ 300 ≤ stc i ∧ stc i < 400)
    (Hloc : ∀ i, i < 5 → dlookup (hd i) (str "location") = some (lc i) ∧ lc i ≠ [] ∧
       parseURL (resolveLocation (webScheme (sc i)) (hs i) (pth i) (lc i)) =
         some (.web (sc (i + 1)) (hs (i + 1)) (pt (i + 1)) (pth (i + 1))))
    (Hfin : ∀ fuel pool, 1 ≤ fuel →
       (request env fuel (.web (sc 5) (hs 5) (pt 5) (pth 5)) 5 ⟨pool, []⟩).result = R) :
    ∀ m, m ≤ 5 → ∀ fuel pool, m + 1 ≤ fuel →
      (request env fuel (.web (sc (5 - m)) (hs (5 - m)) (pt (5 - m)) (pth (5 - m)))
        (5 - m) ⟨pool, []⟩).result = R := by
  intro m
  induction m with
  | zero =>
    intro _ fuel pool hf
    exact Hfin fuel pool hf
  | succ m ih =>
    intro hm fuel pool hf
    obtain ⟨f, rfl⟩ : ∃ f, fuel = f + 1 := ⟨fuel - 1, by omega⟩
    have hk5 : 5 - (m + 1) < 5 := by omega
    have h1 := Hresp _ hk5
    have h2 := Hst _ hk5
    have h3 := Hloc _ hk5
    have hkk : 5 - (m + 1) + 1 = 5 - m := by omega
    rw [request_3xx_follow env f (sc (5 - (m + 1))) (hs (5 - (m + 1))) (pt (5 - (m + 1)))
      (pth (5 - (m + 1))) (5 - (m + 1)) ⟨pool, []⟩ (cacheLookup_nil _ _) h1 h2.1
      ⟨h2.2.1, h2.2.2⟩ (by omega) h3.1 h3.2.1 (hkk ▸ h3.2.2)]
    rw [hkk]
    exact ih (by omega) f _ (by omega)

/-! ## Claims -/

/-- C10: for every URL with scheme `file` or `data`, `request` returns the
file contents or the literal inline data while leaving the process-wide
connection pool and the response cache completely unchanged (no lookup, no
insertion, no eviction), and records no I/O events. -/
theorem c10_file_data_frame (env : Env) (fuel : Nat) (redirects : Nat) (st : RState) :
    (∀ path content, env.fs path = some content →
       request env (fuel + 1) (.file path) redirects st = ⟨.ok content, st, []⟩) ∧
    (∀ mime payload,
       request env (fuel + 1) (.data mime payload) redirects st = ⟨.ok payload, st, []⟩) := by
  constructor
  · intro path content hfs
    simp only [request, hfs]
  · intro mime payload
    rfl

/-- Witness for C10 at a concrete file and data URL. -/
theorem c10_witness :
    envA.fs (str "/a") = some (str "hello") ∧
    request envA 1 (.file (str "/a")) 0 ⟨[], []⟩ = ⟨.ok (str "hello"), ⟨[], []⟩, []⟩ ∧
    request envA 1 (.data (str "text/plain") (str "x,y")) 0 ⟨[], []⟩ =
      ⟨.ok (str "x,y"), ⟨[], []⟩, []⟩ :=
  ⟨by decide, (c10_file_data_frame envA 0 0 ⟨[], []⟩).1 _ _ (by decide),
    (c10_file_data_frame envA 0 0 ⟨[], []⟩).2 _ _⟩

/-- C4: for every http/https URL whose absolute URL string has an unexpired
cache entry, `request` returns the cached body immediately: no request line
or headers are framed or sent and no response is read (only the pool may
open a transport, since the source consults the pool before the cache). -/
theorem c4_cache_hit_no_io (env : Env) (fuel : Nat) (sec : Bool) (host : Str)
    (port : Int) (path : Str) (redirects : Nat) (st : RState) (b : Str) (e : Option Int)
    (hl : dlookup st.cache (urlStr sec host path) = some (b, e))
    (hfresh : e = none ∨ ∃ ev, e = some ev ∧ env.now < ev) :
    (request env (fuel + 1) (.web sec host port path) redirects st).result = .ok b ∧
    ∀ ev ∈ (request env (fuel + 1) (.web sec host port path) redirects st).events,
      isNetIO ev = false := by
  have hc : cacheLookup st.cache (urlStr sec host path) env.now = (some b, st.cache) := by
    rcases hfresh with rfl | ⟨ev, rfl, hlt⟩
    · exact cacheLookup_never env.now hl
    · exact cacheLookup_fresh hl hlt
  rw [request_hit env fuel sec host port path redirects st hc]
  exact ⟨rfl, poolObtain_no_netIO sec host port st.pool⟩

/-- Witness for C4: a cached https entry is served with no send/recv. -/
theorem c4_witness :
    dlookup stC4.cache (urlStr true (str "h") (str "/x")) = some (str "cached", some 200) ∧
    (request envA 1 (.web true (str "h") 443 (str "/x")) 0 stC4).result =
      .ok (str "cached") ∧
    ∀ ev ∈ (request envA 1 (.web true (str "h") 443 (str "/x")) 0 stC4).events,
      isNetIO ev = false :=
  ⟨by decide,
    (c4_cache_hit_no_io envA 0 true (str "h") 443 (str "/x") 0 stC4 (str "cached")
      (some 200) (by decide) (Or.inr ⟨200, rfl, by decide⟩)).1,
    (c4_cache_hit_no_io envA 0 true (str "h") 443 (str "/x") 0 stC4 (str "cached")
      (some 200) (by decide) (Or.inr ⟨200, rfl, by decide⟩)).2⟩

/-- C5: a cache entry is reused exactly while `now < expiry` (or the expiry
is the never-expires marker `none`); once `now ≥ expiry` the entry is evicted
by the lookup itself, and that fetch goes on to frame and send a request (a
fresh network round-trip) instead of returning the stale body. -/
theorem c5_expiry_eviction :
    (∀ (c : Cache) (url : Str) (now : Int) (b : Str),
       dlookup c url = some (b, none) → cacheLookup c url now = (some b, c)) ∧
    (∀ (c : Cache) (url : Str) (now : Int) (b : Str) (e : Int),
       dlookup c url = some (b, some e) → now < e → cacheLookup c url now = (some b, c)) ∧
    (∀ (c : Cache) (url : Str) (now : Int) (b : Str) (e : Int),
       dlookup c url = some (b, some e) → ¬ now < e →
       cacheLookup c url now = (none, ddelete c url) ∧
       dlookup (ddelete c url) url = none) ∧
    (∀ (env : Env) (fuel : Nat) (sec : Bool) (host : Str) (port : Int) (path : Str)
       (redirects : Nat) (st : RState) (b : Str) (e : Int),
       dlookup st.cache (urlStr sec host path) = some (b, some e) → ¬ env.now < e →
       Event.send (framedRequest path host) ∈
         (request env (fuel + 1) (.web sec host port path) redirects st).events) :=
  ⟨fun _ _ now _ h => cacheLookup_never now h,
   fun _ _ _ _ _ h hf => cacheLookup_fresh h hf,
   fun c url _ _ _ h hx => ⟨cacheLookup_expired h hx, dlookup_ddelete_self c url⟩,
   fun env fuel sec host port path redirects st _ _ h hx =>
     request_miss_send env fuel sec host port path redirects st (cacheLookup_expired h hx)⟩

/-- Witness for C5: the entry that expired at 50 is gone at time 100 and the
fetch sends a fresh request. -/
theorem c5_witness :
    dlookup stC5.cache (str "http://h/x") = some (str "old", some 50) ∧ ¬ (100:Int) < 50 ∧
    cacheLookup stC5.cache (str "http://h/x") 100 = (none, ddelete stC5.cache (str "http://h/x")) ∧
    Event.send (framedRequest (str "/x") (str "h")) ∈
      (request envA 1 (.web false (str "h") 80 (str "/x")) 0 stC5).events :=
  ⟨by decide, by decide,
    (c5_expiry_eviction.2.2.1 stC5.cache (str "http://h/x") 100 (str "old") 50
      (by decide) (by decide)).1,
    c5_expiry_eviction.2.2.2 envA 0 false (str "h") 80 (str "/x") 0 stC5 (str "old") 50
      (by decide) (by decide)⟩

/-- C8: `decode_entities` replaces exactly the five table entities with their
characters (compositionally, at the head of any remaining text), passes text
without ampersands or without semicolons through unchanged, passes an
unrecognized terminated entity through literally (consuming only the
ampersand), and decodes the concrete examples of the specification. -/
theorem c8_decode_entities :
    (∀ t, decode_entities (str "&lt;" ++ t) = str "<" ++ decode_entities t) ∧
    (∀ t, decode_entities (str "&gt;" ++ t) = str ">" ++ decode_entities t) ∧
    (∀ t, decode_entities (str "&copy;" ++ t) = str "©" ++ decode_entities t) ∧
    (∀ t, decode_entities (str "&ndash;" ++ t) = str "–" ++ decode_entities t) ∧
    (∀ t, decode_entities (str "&amp;" ++ t) = str "&" ++ decode_entities t) ∧
    (∀ t, '&' ∉ t → decode_entities t = t) ∧
    (∀ t, ';' ∉ t → decode_entities t = t) ∧
    (∀ rest a after, splitAtSemi rest = some (a, after) →
       dlookup ENTITIES ('&' :: a) = none →
       decode_entities ('&' :: rest) = '&' :: decode_entities rest) ∧
    decode_entities (str "a &lt;b&gt; c") = str "a <b> c" ∧
    decode_entities (str "&foo") = str "&foo" ∧
    decode_entities (str "&quot;x") = str "&quot;x" := by
  refine ⟨fun t => ?_, fun t => ?_, fun t => ?_, fun t => ?_, fun t => ?_,
    fun t => decode_entities_no_amp, fun t => decode_entities_no_semi,
    fun rest a after hs hm => decode_entities_amp_skip hs hm,
    by decide, by decide, by decide⟩
  · exact decode_entities_entity (str "lt") (str "<") t (by decide) (by decide)
  · exact decode_entities_entity (str "gt") (str ">") t (by decide) (by decide)
  · exact decode_entities_entity (str "copy") (str "©") t (by decide) (by decide)
  · exact decode_entities_entity (str "ndash") (str "–") t (by decide) (by decide)
  · exact decode_entities_entity (str "amp") (str "&") t (by decide) (by decide)

/-- Witness for C8 at concrete inputs. -/
theorem c8_witness :
    decode_entities (str "&lt;" ++ str "rest") = str "<" ++ decode_entities (str "rest") ∧
    '&' ∉ str "plain" ∧ decode_entities (str "plain") = str "plain" :=
  ⟨c8_decode_entities.1 (str "rest"), by decide,
    c8_decode_entities.2.2.2.2.2.1 (str "plain") (by decide)⟩

/-- C6: with `transfer-encoding: chunked` the body is rebuilt by the
chunk-size/payload loop — for any well-formed chunk list the loop returns
exactly the concatenated payloads and stops after the terminating `0` chunk's
CRLF — and the concrete 5/3/0 response yields the 8-byte body. -/
theorem c6_chunked_body :
    (∀ (l : List (Str × Str)) (tail : Str),
       (∀ sc ∈ l, '\n' ∉ sc.1 ∧ sc.2 ≠ [] ∧
          pyIntHex (pyStrip (sc.1 ++ str "\r\n")) = some sc.2.length) →
       readChunks (chunkEncode l ++ tail) = some ((l.map Prod.snd).flatten, tail)) ∧
    (∀ hdrs stream, dlookup hdrs (str "transfer-encoding") = some (str "chunked") →
       readBody hdrs stream = (readChunks stream).map Prod.fst) ∧
    (request envC6 1 (.web false (str "h") 80 (str "/c")) 0 ⟨[], []⟩).result =
      .ok (str "helloabc") ∧
    (str "helloabc").length = 8 := by
  refine ⟨?_, ?_, by decide, by decide⟩
  · intro l tail hok
    rw [readChunks]
    refine readChunksF_encode _ l tail ?_ hok
    have h1 := chunkEncode_length l
    have h2 : (chunkEncode l).length ≤ (chunkEncode l ++ tail).length := by simp
    omega
  · intro hdrs stream h
    rw [readBody, if_pos h]

/-- Witness for C6's general loop at the concrete 5/3/0 chunk list. -/
theorem c6_witness :
    readChunks (chunkEncode [(str "5", str "hello"), (str "3", str "abc")] ++ str "XX") =
      some (str "helloabc", str "XX") :=
  (c6_chunked_body.1 [(str "5", str "hello"), (str "3", str "abc")] (str "XX")
    (by decide)).trans (by decide)

/-- C3 counterexample: `Cache-Control: max-age=-5` is *not* a non-negative
integer, yet the 200 response is inserted into the cache (with an
already-elapsed expiry of `now + (-5)`), refuting "inserted only when the
max-age directive parses as a non-negative integer". -/
theorem c3_counterexample :
    parseMaxAge (str "max-age=-5") = some (-5) ∧
    (request envC3 1 (.web false (str "h") 80 (str "/a")) 0 ⟨[], []⟩).st.cache =
      [(str "http://h/a", (str "hi", some (-5)))] ∧
    (request envC3 1 (.web false (str "h") 80 (str "/a")) 0 ⟨[], []⟩).result =
      .ok (str "hi") := by
  refine ⟨by decide, by decide, by decide⟩

/-- C3 (amended): for every 200 response, a cache entry is inserted exactly
when the cache-control value contains a `max-age` directive whose text after
the first `=` parses with Python `int` — sign included, so negative values
are accepted and stored — in which case `(body, now + max-age)` is stored;
a malformed or absent directive means no insertion, and the failure is
swallowed (the body is still returned). -/
theorem c3_cache_insertion (env : Env) (fuel : Nat) (sec : Bool) (host : Str)
    (port : Int) (path : Str) (redirects : Nat) (st : RState) (c2 : Cache)
    (ver ss ex : Str) (hdrs : Headers) (rest bb : Str)
    (hc : cacheLookup st.cache (urlStr sec host path) env.now = (none, c2))
    (hp : parseRespHead (env.net host port path) = some (ver, ss, ex, hdrs, rest))
    (hi : pyInt ss = some 200)
    (hb : readBody hdrs rest = some bb) :
    ((∀ ma, parseMaxAge (hGet hdrs (str "cache-control") []) = some ma →
        (request env (fuel + 1) (.web sec host port path) redirects st).st.cache =
          dinsert c2 (urlStr sec host path)
            (if hGet hdrs (str "content-encoding") [] = str "gzip"
               then env.gunzip bb else bb, some (env.now + ma))) ∧
     (parseMaxAge (hGet hdrs (str "cache-control") []) = none →
        (request env (fuel + 1) (.web sec host port path) redirects st).st.cache = c2) ∧
     (request env (fuel + 1) (.web sec host port path) redirects st).result =
       .ok (if hGet hdrs (str "content-encoding") [] = str "gzip"
              then env.gunzip bb else bb)) ∧
    (∀ i : Int, parseMaxAge (str "max-age=" ++ intToStr i) = some i) ∧
    (∀ cc, containsSubstr cc (str "max-age=") = false → parseMaxAge cc = none) ∧
    parseMaxAge (str "max-age=abc") = none ∧
    parseMaxAge (str "") = none := by
  have h200 : ¬ (300 ≤ (200 : Int) ∧ (200 : Int) < 400) := by omega
  rw [request_non3xx env fuel sec host port path redirects st hc hp hi h200 hb]
  refine ⟨⟨?_, ?_, rfl⟩, parseMaxAge_well_formed, fun cc h => parseMaxAge_absent h,
    by decide, by decide⟩
  · intro ma hma
    simp [hma]
  · intro hma
    simp [hma]

/-- Witness for C3's amended pipeline claim on the concrete `max-age=-5`
response (insertion with a negative max-age). -/
theorem c3_witness :
    (request envC3 1 (.web false (str "h") 80 (str "/a")) 0 ⟨[], []⟩).st.cache =
      dinsert [] (urlStr false (str "h") (str "/a")) (str "hi", some ((0 : Int) + (-5))) :=
  ((c3_cache_insertion envC3 0 false (str "h") 80 (str "/a") 0 ⟨[], []⟩ []
      (str "HTTP/1.1") (str "200") (str "OK\r\n")
      [(str "content-length", str "2"), (str "cache-control", str "max-age=-5")]
      (str "hi") (str "hi")
      (by decide) (by decide) (by decide) (by decide)).1.1 (-5) (by decide))

/-- C2 counterexample: after an https request to (h, 1234) pools a
TLS-wrapped transport, an http request to the same (host, port) silently
reuses it — it performs its network send with no `connect`/`tlsWrap` event —
refuting "a TLS-upgraded transport is never reused under a different
scheme". -/
theorem c2_counterexample :
    (request envC2 1 (.web true (str "h") 1234 (str "/a")) 0 ⟨[], []⟩).st.pool =
      [((str "h", 1234), ⟨str "h", 1234, true⟩)] ∧
    (request envC2 1 (.web false (str "h") 1234 (str "/b")) 0
        (request envC2 1 (.web true (str "h") 1234 (str "/a")) 0 ⟨[], []⟩).st).events =
      [.send (framedRequest (str "/b") (str "h")), .recv (str "h") 1234 (str "/b")] ∧
    (request envC2 1 (.web false (str "h") 1234 (str "/b")) 0
        (request envC2 1 (.web true (str "h") 1234 (str "/a")) 0 ⟨[], []⟩).st).result =
      .ok (str "hi") := by
  refine ⟨by decide, by decide, by decide⟩

/-- C2 (amended): the pool holds at most one entry per distinct (host, port)
key, but the key carries no scheme: any pooled transport — TLS-wrapped or
not — is reused unchanged by every later request to the same (host, port),
whatever its scheme; no new connection is ever opened for a pooled key. -/
theorem c2_pool_key_reuse :
    (∀ (env : Env) (fuel : Nat) (u : ParsedURL) (redirects : Nat) (st : RState),
       (st.pool.map Prod.fst).Nodup →
       (((request env fuel u redirects st).st.pool).map Prod.fst).Nodup) ∧
    (∀ (env : Env) (fuel : Nat) (u : ParsedURL) (redirects : Nat) (st : RState)
       (k : Str × Int) (t : Transport), dlookup st.pool k = some t →
       dlookup (request env fuel u redirects st).st.pool k = some t ∧
       Event.connect k.1 k.2 ∉ (request env fuel u redirects st).events) :=
  ⟨fun env fuel u redirects st h => request_pool_nodup env fuel u redirects st h,
   fun env fuel u redirects st k t h =>
     ⟨request_pool_mono env fuel u redirects st k t h,
      request_no_connect env fuel u redirects st k t h⟩⟩

/-- Witness for C2's amended claim: the pooled TLS transport of the
counterexample is kept and no connect event occurs on the http reuse. -/
theorem c2_witness :
    dlookup [((str "h", 1234), (⟨str "h", 1234, true⟩ : Transport))] (str "h", 1234) =
      some ⟨str "h", 1234, true⟩ ∧
    dlookup (request envC2 1 (.web false (str "h") 1234 (str "/b")) 0
        ⟨[((str "h", 1234), ⟨str "h", 1234, true⟩)], []⟩).st.pool (str "h", 1234) =
      some ⟨str "h", 1234, true⟩ ∧
    Event.connect (str "h") 1234 ∉
      (request envC2 1 (.web false (str "h") 1234 (str "/b")) 0
        ⟨[((str "h", 1234), ⟨str "h", 1234, true⟩)], []⟩).events :=
  ⟨by decide,
   (c2_pool_key_reuse.2 envC2 1 (.web false (str "h") 1234 (str "/b")) 0
      ⟨[((str "h", 1234), ⟨str "h", 1234, true⟩)], []⟩ (str "h", 1234)
      ⟨str "h", 1234, true⟩ (by decide)).1,
   (c2_pool_key_reuse.2 envC2 1 (.web false (str "h") 1234 (str "/b")) 0
      ⟨[((str "h", 1234), ⟨str "h", 1234, true⟩)], []⟩ (str "h", 1234)
      ⟨str "h", 1234, true⟩ (by decide)).2⟩

/-- C9: the cache key is `scheme://host + path` with the port omitted, so a
body cached by a 200-with-max-age fetch on one port is returned, while
unexpired, by a later fetch of the same scheme/host/path on any other port,
with no request framed or sent and no response read. -/
theorem c9_cache_ignores_port (env env2 : Env) (fuel fuel2 : Nat) (sec : Bool)
    (host : Str) (p1 p2 : Int) (path : Str) (st : RState) (c2 : Cache)
    (ver ss ex : Str) (hdrs : Headers) (rest bb : Str) (ma : Int)
    (hc : cacheLookup st.cache (urlStr sec host path) env.now = (none, c2))
    (hp : parseRespHead (env.net host p1 path) = some (ver, ss, ex, hdrs, rest))
    (hi : pyInt ss = some 200)
    (hb : readBody hdrs rest = some bb)
    (hgz : ¬ hGet hdrs (str "content-encoding") [] = str "gzip")
    (hma : parseMaxAge (hGet hdrs (str "cache-control") []) = some ma)
    (hfresh : env2.now < env.now + ma) :
    (request env (fuel + 1) (.web sec host p1 path) 0 st).result = .ok bb ∧
    dlookup (request env (fuel + 1) (.web sec host p1 path) 0 st).st.cache
      (urlStr sec host path) = some (bb, some (env.now + ma)) ∧
    (request env2 (fuel2 + 1) (.web sec host p2 path) 0
       (request env (fuel + 1) (.web sec host p1 path) 0 st).st).result = .ok bb ∧
    (∀ e ∈ (request env2 (fuel2 + 1) (.web sec host p2 path) 0
       (request env (fuel + 1) (.web sec host p1 path) 0 st).st).events,
       isNetIO e = false) := by
  have h200 : ¬ (300 ≤ (200 : Int) ∧ (200 : Int) < 400) := by omega
  rw [request_non3xx env fuel sec host p1 path 0 st hc hp hi h200 hb]
  simp only [if_neg hgz, if_pos rfl, hma, if_true]
  have hlk : dlookup (dinsert c2 (urlStr sec host path) (bb, some (env.now + ma)))
      (urlStr sec host path) = some (bb, some (env.now + ma)) :=
    dlookup_dinsert_self _ _ _
  have hc2 : cacheLookup (dinsert c2 (urlStr sec host path) (bb, some (env.now + ma)))
      (urlStr sec host path) env2.now =
      (some bb, dinsert c2 (urlStr sec host path) (bb, some (env.now + ma))) :=
    cacheLookup_fresh hlk hfresh
  rw [request_hit env2 fuel2 sec host p2 path 0 _ hc2]
  exact ⟨trivial, hlk, rfl, poolObtain_no_netIO sec host p2 _⟩

/-- Witness for C9: a body cached by a fetch on port 80 is served to a later
fetch on port 8080. -/
theorem c9_witness :
    (request envA 1 (.web false (str "h") 80 (str "/z")) 0 ⟨[], []⟩).result =
      .ok (str "hi") ∧
    (request envA 1 (.web false (str "h") 8080 (str "/z")) 0
       (request envA 1 (.web false (str "h") 80 (str "/z")) 0 ⟨[], []⟩).st).result =
      .ok (str "hi") ∧
    (∀ e ∈ (request envA 1 (.web false (str "h") 8080 (str "/z")) 0
       (request envA 1 (.web false (str "h") 80 (str "/z")) 0 ⟨[], []⟩).st).events,
       isNetIO e = false) := by
  have h := c9_cache_ignores_port envA envA 0 0 false (str "h") 80 8080 (str "/z")
    ⟨[], []⟩ [] (str "HTTP/1.1") (str "200") (str "OK\r\n")
    [(str "content-length", str "2"), (str "cache-control", str "max-age=60")]
    (str "hi") (str "hi") 60
    (by decide) (by decide) (by decide) (by decide) (by decide) (by decide) (by decide)
  exact ⟨h.1, h.2.2.1, h.2.2.2⟩

/-- C7: for well-formed `scheme://host[:port]/path` strings, parsing yields
the host with no port fragment, the explicit port or the scheme default
80/443, and a nonempty path beginning with `/` (with path `/` when the input
has no slash after the host); and every parsed http/https URL re-serializes
to a string that parses back to the same host, port and path. -/
theorem c7_parse_roundtrip :
    (∀ (sec : Bool) (h pr : Str), ':' ∉ h → '/' ∉ h →
       parseURL (webScheme sec ++ str "://" ++ (h ++ '/' :: pr)) =
         some (.web sec h (if sec then 443 else 80) ('/' :: pr))) ∧
    (∀ (sec : Bool) (h prt pr : Str) (pn : Int), ':' ∉ h → '/' ∉ h → '/' ∉ prt →
       pyInt prt = some pn →
       parseURL (webScheme sec ++ str "://" ++ (h ++ ':' :: (prt ++ '/' :: pr))) =
         some (.web sec h pn ('/' :: pr))) ∧
    (∀ (sec : Bool) (h : Str), ':' ∉ h → '/' ∉ h →
       parseURL (webScheme sec ++ str "://" ++ h) =
         some (.web sec h (if sec then 443 else 80) ['/'])) ∧
    (∀ (s : Str) (sec : Bool) (h : Str) (pn : Int) (pa : Str),
       parseURL s = some (.web sec h pn pa) →
       ':' ∉ h ∧ '/' ∉ h ∧ pa ≠ [] ∧ pa.head? = some '/' ∧
       parseURL (serializeWeb sec h pn pa) = some (.web sec h pn pa)) := by
  refine ⟨?_, ?_, ?_, ?_⟩
  · intro sec h pr hh1 hh2
    rw [parseURL_web_reduce]
    exact parseWebTail_noport sec pr hh1 hh2
  · intro sec h prt pr pn hh1 hh2 hp2 hpn
    rw [parseURL_web_reduce]
    exact parseWebTail_port sec pr hh1 hh2 hp2 hpn
  · intro sec h hh1 hh2
    rw [parseURL_web_reduce]
    exact parseWebTail_noslash sec hh1 hh2
  · intro s sec h pn pa hp
    obtain ⟨hh1, hh2, pr, rfl⟩ := parseURL_web_inv hp
    refine ⟨hh1, hh2, by simp, rfl, ?_⟩
    have hpd : '/' ∉ intToStr pn :=
      not_mem_intToStr pn (by decide) (by intro d hd; interval_cases d <;> decide)
    rw [show serializeWeb sec h pn ('/' :: pr) =
      webScheme sec ++ str "://" ++ (h ++ ':' :: (intToStr pn ++ '/' :: pr)) from rfl]
    rw [parseURL_web_reduce]
    exact parseWebTail_port sec pr hh1 hh2 hpd (pyInt_intToStr pn)

/-- Witness for C7 at concrete URLs. -/
theorem c7_witness :
    parseURL (webScheme false ++ str "://" ++ (str "example.com" ++ '/' :: str "a/b")) =
      some (.web false (str "example.com") 80 ('/' :: str "a/b")) ∧
    parseURL (webScheme true ++ str "://" ++
        (str "example.com" ++ ':' :: (str "8080" ++ '/' :: []))) =
      some (.web true (str "example.com") 8080 ['/']) ∧
    parseURL (webScheme true ++ str "://" ++ str "example.com") =
      some (.web true (str "example.com") 443 ['/']) ∧
    parseURL (serializeWeb true (str "example.com") 8080 ['/']) =
      some (.web true (str "example.com") 8080 ['/']) :=
  ⟨c7_parse_roundtrip.1 false (str "example.com") (str "a/b") (by decide) (by decide),
   c7_parse_roundtrip.2.1 true (str "example.com") (str "8080") [] 8080
     (by decide) (by decide) (by decide) (by decide),
   c7_parse_roundtrip.2.2.1 true (str "example.com") (by decide) (by decide),
   (c7_parse_roundtrip.2.2.2
     (webScheme true ++ str "://" ++
       (str "example.com" ++ ':' :: (str "8080" ++ '/' :: []))) true
     (str "example.com") 8080 ['/']
     (c7_parse_roundtrip.2.1 true (str "example.com") (str "8080") [] 8080
       (by decide) (by decide) (by decide) (by decide))).2.2.2.2⟩

/-- C1: `request` raises TooManyRedirects on a 3xx response exactly when the
redirect counter at that hop is ≥ 5 (below 5 it proceeds to the resolved
redirect target with the counter incremented); consequently a chain of
exactly 5 redirects started at counter 0 succeeds with the final body, and a
chain whose 6th hop is again a 3xx fails with TooManyRedirects. -/
theorem c1_redirect_limit :
    (∀ (env : Env) (fuel : Nat) (sec : Bool) (host : Str) (port : Int) (path : Str)
       (redirects : Nat) (st : RState) (c2 : Cache) (ver ss ex : Str) (hdrs : Headers)
       (rest : Str) (status : Int),
       cacheLookup st.cache (urlStr sec host path) env.now = (none, c2) →
       parseRespHead (env.net host port path) = some (ver, ss, ex, hdrs, rest) →
       pyInt ss = some status → 300 ≤ status → status < 400 → 5 ≤ redirects →
       (request env (fuel + 1) (.web sec host port path) redirects st).result =
         .error .tooManyRedirects) ∧
    (∀ (env : Env) (fuel : Nat) (sec : Bool) (host : Str) (port : Int) (path : Str)
       (redirects : Nat) (st : RState) (c2 : Cache) (ver ss ex : Str) (hdrs : Headers)
       (rest : Str) (status : Int) (loc : Str) (ru : ParsedURL),
       cacheLookup st.cache (urlStr sec host path) env.now = (none, c2) →
       parseRespHead (env.net host port path) = some (ver, ss, ex, hdrs, rest) →
       pyInt ss = some status → 300 ≤ status → status < 400 → redirects < 5 →
       dlookup hdrs (str "location") = some loc → loc ≠ [] →
       parseURL (resolveLocation (webScheme sec) host path loc) = some ru →
       (request env (fuel + 1) (.web sec host port path) redirects st).result =
         (request env fuel ru (redirects + 1)
            ⟨(poolObtain sec host port st.pool).2.1, c2⟩).result) ∧
    (∀ (env : Env) (sc : Nat → Bool) (hs : Nat → Str) (pt : Nat → Int) (pth : Nat → Str)
       (ver ss ex : Nat → Str) (hd : Nat → Headers) (rs : Nat → Str) (stc : Nat → Int)
       (lc : Nat → Str) (B : Str) (fuel : Nat) (pool : Pool),
       6 ≤ fuel →
       (∀ i, i < 6 → parseRespHead (env.net (hs i) (pt i) (pth i)) =
          some (ver i, ss i, ex i, hd i, rs i)) →
       (∀ i, i < 5 → pyInt (ss i) = some (stc i) ∧ 300 ≤ stc i ∧ stc i < 400) →
       (∀ i, i < 5 → dlookup (hd i) (str "location") = some (lc i) ∧ lc i ≠ [] ∧
          parseURL (resolveLocation (webScheme (sc i)) (hs i) (pth i) (lc i)) =
            some (.web (sc (i + 1)) (hs (i + 1)) (pt (i + 1)) (pth (i + 1)))) →
       pyInt (ss 5) = some 200 →
       readBody (hd 5) (rs 5) = some B →
       ¬ hGet (hd 5) (str "content-encoding") [] = str "gzip" →
       (request env fuel (.web (sc 0) (hs 0) (pt 0) (pth 0)) 0 ⟨pool, []⟩).result =
         .ok B) ∧
    (∀ (env : Env) (sc : Nat → Bool) (hs : Nat → Str) (pt : Nat → Int) (pth : Nat → Str)
       (ver ss ex : Nat → Str) (hd : Nat → Headers) (rs : Nat → Str) (stc : Nat → Int)
       (lc : Nat → Str) (fuel : Nat) (pool : Pool),
       6 ≤ fuel →
       (∀ i, i < 6 → parseRespHead (env.net (hs i) (pt i) (pth i)) =
          some (ver i, ss i, ex i, hd i, rs i)) →
       (∀ i, i < 6 → pyInt (ss i) = some (stc i) ∧ 300 ≤ stc i ∧ stc i < 400) →
       (∀ i, i < 5 → dlookup (hd i) (str "location") = some (lc i) ∧ lc i ≠ [] ∧
          parseURL (resolveLocation (webScheme (sc i)) (hs i) (pth i) (lc i)) =
            some (.web (sc (i + 1)) (hs (i + 1)) (pt (i + 1)) (pth (i + 1)))) →
       (request env fuel (.web (sc 0) (hs 0) (pt 0) (pth 0)) 0 ⟨pool, []⟩).result =
         .error .tooManyRedirects) := by
  refine ⟨?_, ?_, ?_, ?_⟩
  · intro env fuel sec host port path redirects st c2 ver ss ex hdrs rest status
      hc hp hi h3a h3b hr
    rw [request_3xx_limit env fuel sec host port path redirects st hc hp hi ⟨h3a, h3b⟩ hr]
  · intro env fuel sec host port path redirects st c2 ver ss ex hdrs rest status loc ru
      hc hp hi h3a h3b hr hl hne hru
    rw [request_3xx_follow env fuel sec host port path redirects st hc hp hi ⟨h3a, h3b⟩
      (by omega) hl hne hru]
  · intro env sc hs pt pth ver ss ex hd rs stc lc B fuel pool hfuel Hresp Hst Hloc
      h200 hbody hgz
    have Hfin : ∀ f pool', 1 ≤ f →
        (request env f (.web (sc 5) (hs 5) (pt 5) (pth 5)) 5 ⟨pool', []⟩).result =
          .ok B := by
      intro f pool' hf
      obtain ⟨f', rfl⟩ : ∃ f', f = f' + 1 := ⟨f - 1, by omega⟩
      rw [request_non3xx env f' (sc 5) (hs 5) (pt 5) (pth 5) 5 ⟨pool', []⟩
        (cacheLookup_nil _ _) (Hresp 5 (by omega)) h200 (by omega) hbody]
      simp [if_neg hgz]
    have := redirect_chain env sc hs pt pth ver ss ex hd rs stc lc (.ok B)
      (fun i hi => Hresp i (by omega)) Hst Hloc Hfin 5 (by omega) fuel pool (by omega)
    simpa using this
  · intro env sc hs pt pth ver ss ex hd rs stc lc fuel pool hfuel Hresp Hst Hloc
    have Hfin : ∀ f pool', 1 ≤ f →
        (request env f (.web (sc 5) (hs 5) (pt 5) (pth 5)) 5 ⟨pool', []⟩).result =
          .error .tooManyRedirects := by
      intro f pool' hf
      obtain ⟨f', rfl⟩ : ∃ f', f = f' + 1 := ⟨f - 1, by omega⟩
      have h5 := Hst 5 (by omega)
      rw [request_3xx_limit env f' (sc 5) (hs 5) (pt 5) (pth 5) 5 ⟨pool', []⟩
        (cacheLookup_nil _ _) (Hresp 5 (by omega)) h5.1 ⟨h5.2.1, h5.2.2⟩ (by omega)]
    have := redirect_chain env sc hs pt pth ver ss ex hd rs stc lc
      (.error .tooManyRedirects)
      (fun i hi => Hresp i (by omega)) (fun i hi => Hst i (by omega)) Hloc Hfin
      5 (by omega) fuel pool (by omega)
    simpa using this

/-- Witness for C1: the concrete 5-hop chain succeeds and the all-3xx chain
fails with TooManyRedirects. -/
theorem c1_witness :
    (request envC1 6 (.web false (str "h") 80 (str "/r0")) 0 ⟨[], []⟩).result =
      .ok (str "ok") ∧
    (request envC1B 6 (.web false (str "h") 80 (str "/x")) 0 ⟨[], []⟩).result =
      .error .tooManyRedirects :=
  ⟨c1_redirect_limit.2.2.1 envC1 (fun _ => false) (fun _ => str "h") (fun _ => 80)
    (fun i => if i = 0 then str "/r0" else if i = 1 then str "/r1"
      else if i = 2 then str "/r2" else if i = 3 then str "/r3"
      else if i = 4 then str "/r4" else str "/ok")
    (fun _ => str "HTTP/1.1")
    (fun i => if i < 5 then str "301" else str "200")
    (fun i => if i < 5 then str "M\r\n" else str "OK\r\n")
    (fun i => if i < 5 then
        [(str "location",
          if i = 0 then str "http://h/r1" else if i = 1 then str "http://h/r2"
          else if i = 2 then str "http://h/r3" else if i = 3 then str "http://h/r4"
          else str "http://h/ok")]
      else [(str "content-length", str "2")])
    (fun i => if i < 5 then [] else str "ok")
    (fun i => if i < 5 then 301 else 200)
    (fun i => if i = 0 then str "http://h/r1" else if i = 1 then str "http://h/r2"
      else if i = 2 then str "http://h/r3" else if i = 3 then str "http://h/r4"
      else str "http://h/ok")
    (str "ok") 6 [] (by omega) (by decide) (by decide) (by decide) (by decide)
    (by decide) (by decide),
   c1_redirect_limit.2.2.2 envC1B (fun _ => false) (fun _ => str "h") (fun _ => 80)
    (fun _ => str "/x") (fun _ => str "HTTP/1.1") (fun _ => str "301")
    (fun _ => str "M\r\n") (fun _ => [(str "location", str "http://h/x")])
    (fun _ => []) (fun _ => 301) (fun _ => str "http://h/x") 6 []
    (by omega) (by decide) (by decide) (by decide)⟩

end BrowserEng
